import Mathlib

/-!
Shallow embedding of the knowledge-base store `kb.py` (classes `KB` and
`FactKB`) and proofs of the specification claims about it.

Python dictionaries keyed by dataset name are modelled as insertion-ordered
association lists `List (String × α)` (keys are unique in all reachable
states; lookup finds the first matching key, exactly as a dict does).
Python's `array('I')` buffers are modelled as `List Nat`.  Exceptions
(`assert` failures, `KeyError`, `IndexError`) are modelled with
`Except`/`Option`; the `Except` error value carries the store state at the
moment the exception is raised, since the Python object survives the
exception with all mutations made so far.
-/

/-- Lookup in an association-list model of a Python dict (first match). -/
def dlookup {α : Type} (d : List (String × α)) (k : String) : Option α :=
  (d.find? (fun p => p.1 == k)).map Prod.snd

/-- Membership test, Python's `k in d`. -/
def dcontains {α : Type} (d : List (String × α)) (k : String) : Bool :=
  (dlookup d k).isSome

/-- Python's `d[k] = v`: replace the value at an existing key in place,
otherwise append the new key at the end (dicts are insertion ordered). -/
def dset {α : Type} (d : List (String × α)) (k : String) (v : α) : List (String × α) :=
  if dcontains d k then d.map (fun p => if p.1 == k then (k, v) else p)
  else d ++ [(k, v)]

/-- Python's `d.get(k, dflt)`. -/
def dgetD {α : Type} (d : List (String × α)) (k : String) (dflt : α) : α :=
  (dlookup d k).getD dflt

/-- Python's slice `l[a:b]` for non-negative bounds. -/
def listSlice {α : Type} (l : List α) (a b : Nat) : List α :=
  (l.take b).drop a

/-- Python list indexing `l[i]` for a list of length `n`: a non-negative
index must be `< n`, a negative index wraps to `n + i` when `-n ≤ i`;
anything else raises `IndexError` (modelled as `none`).  Returns the
resolved non-negative position. -/
def pyIdx (n : Nat) (i : Int) : Option Nat :=
  if 0 ≤ i then (if i < (n : Int) then some i.toNat else none)
  else (if -(n : Int) ≤ i then some (((n : Int) + i).toNat) else none)

/-- Python's `l[i] += 1` on a count list (always in range in reachable
states). -/
def listInc (l : List Nat) (i : Nat) : List Nat :=
  l.set i (l.getD i 0 + 1)

/-- The `KB` object state: all private fields of the Python class. -/
structure KB where
  contexts : List (String × List Nat)
  starts : List (String × List Nat)
  ends : List (String × List Nat)
  answersArr : List (String × List Nat)
  context_offsets : List (String × List Nat)
  span_offsets : List (String × List Nat)
  vocab : List String
  answer_vocab : List String
  count : List Nat
  answer_count : List Nat
  ids : List (String × Nat)
  answer_ids : List (String × Nat)
  max_context_length : Nat
  max_span_length : Nat
  ordered : Bool

/-- Freshly constructed `KB()`. -/
def KB.init : KB :=
  { contexts := [], starts := [], ends := [], answersArr := [],
    context_offsets := [], span_offsets := [],
    vocab := [], answer_vocab := [], count := [], answer_count := [],
    ids := [], answer_ids := [],
    max_context_length := 0, max_span_length := 0, ordered := false }

/-- `KB.__add_to_vocab`: intern a symbol into the word vocabulary and
bump its frequency count; returns the id and the updated store. -/
def KB.add_to_vocab (kb : KB) (key : String) : Nat × KB :=
  let kb1 :=
    if dcontains kb.ids key then kb
    else
      { kb with ids := kb.ids ++ [(key, kb.vocab.length)],
                vocab := kb.vocab ++ [key],
                count := kb.count ++ [0] }
  let i := (dlookup kb1.ids key).getD 0
  (i, { kb1 with count := listInc kb1.count i })

/-- `KB.__add_to_answer_vocab`: same, for the answer vocabulary. -/
def KB.add_to_answer_vocab (kb : KB) (key : String) : Nat × KB :=
  let kb1 :=
    if dcontains kb.answer_ids key then kb
    else
      { kb with answer_ids := kb.answer_ids ++ [(key, kb.answer_vocab.length)],
                answer_vocab := kb.answer_vocab ++ [key],
                answer_count := kb.answer_count ++ [0] }
  let i := (dlookup kb1.answer_ids key).getD 0
  (i, { kb1 with answer_count := listInc kb1.answer_count i })

/-- Net effect of `self.__contexts[dataset].extend(self.__add_to_vocab(w)
for w in context)`: intern every token left to right, collecting the ids. -/
def KB.internAll (kb : KB) : List String → List Nat × KB
  | [] => ([], kb)
  | w :: ws =>
    let p := KB.add_to_vocab kb w
    let q := KB.internAll p.2 ws
    (p.1 :: q.1, q.2)

/-- One iteration of the `for answer in answers:` loop of `KB.add`:
intern the answer into the answer vocabulary, append the resulting id to
the partition's answer array, and intern the answer into the word
vocabulary as well. -/
def KB.pushAnswer (kb : KB) (dataset : String) (a : String) : KB :=
  let p := KB.add_to_answer_vocab kb a
  let k1 := { p.2 with answersArr := dset p.2.answersArr dataset
                         (dgetD p.2.answersArr dataset [] ++ [p.1]) }
  (KB.add_to_vocab k1 a).2

/-- The whole `for answer in answers:` loop of `KB.add`. -/
def KB.addAnswers (kb : KB) (dataset : String) : List String → KB
  | [] => kb
  | a :: rest => KB.addAnswers (KB.pushAnswer kb dataset a) dataset rest

/-- `KB.num_contexts`: `len(self.__context_offsets.get(dataset, []))`. -/
def KB.num_contexts (kb : KB) (dataset : String) : Nat :=
  (dgetD kb.context_offsets dataset []).length

/-- The running-maximum bookkeeping at the end of `KB.add`. -/
def KB.withMax (kb : KB) (context : List String) (spans : List (Nat × Nat)) : KB :=
  { kb with max_context_length := max kb.max_context_length context.length,
            max_span_length := max kb.max_span_length spans.length }

/-- Tail of `KB.add`: the running-maximum bookkeeping and the return value
`self.num_contexts(dataset) - 1`. -/
def KB.finishAdd (kb : KB) (context : List String) (spans : List (Nat × Nat))
    (dataset : String) : Except (String × KB) (Nat × KB) :=
  let kb1 := kb.withMax context spans
  .ok (kb1.num_contexts dataset - 1, kb1)

/-- Lazy creation step of `KB.add`: `if dataset not in self.__contexts:`
create the six per-dataset entries. -/
def KB.addCreate (kb : KB) (dataset : String) : KB :=
  if dcontains kb.contexts dataset then kb
  else
    { kb with contexts := kb.contexts ++ [(dataset, [])],
              starts := kb.starts ++ [(dataset, [])],
              ends := kb.ends ++ [(dataset, [])],
              answersArr := kb.answersArr ++ [(dataset, [])],
              context_offsets := kb.context_offsets ++ [(dataset, [])],
              span_offsets := kb.span_offsets ++ [(dataset, [])] }

/-- Offset-recording step of `KB.add`: append the current context-array
length to the context offset table and the current start-array length to
the span offset table. -/
def KB.addOffsets (kb : KB) (dataset : String) : KB :=
  { kb with
    context_offsets := dset kb.context_offsets dataset
      (dgetD kb.context_offsets dataset [] ++ [(dgetD kb.contexts dataset []).length]),
    span_offsets := dset kb.span_offsets dataset
      (dgetD kb.span_offsets dataset [] ++ [(dgetD kb.starts dataset []).length]) }

/-- Payload step of `KB.add`: intern and append the context tokens, then
append every span's start and end to the parallel span arrays. -/
def KB.addCore (kb : KB) (context : List String) (spans : List (Nat × Nat))
    (dataset : String) : KB :=
  let r := KB.internAll kb context
  let kb3 := { r.2 with contexts := dset r.2.contexts dataset (dgetD r.2.contexts dataset [] ++ r.1) }
  { kb3 with
    starts := dset kb3.starts dataset (dgetD kb3.starts dataset [] ++ spans.map Prod.fst),
    ends := dset kb3.ends dataset (dgetD kb3.ends dataset [] ++ spans.map Prod.snd) }

/-- `KB.add(context, spans, answers, dataset)`.  Mirrors the Python
statement order exactly: `ordered` is cleared before the try block, the
zero-span assert fires before any array is touched, the six per-dataset
entries are created lazily, offsets are recorded, tokens are interned and
appended, spans are appended, and only then is the answers/spans length
assert checked (`answers is not None and self.__answers`, the latter being
dict non-emptiness). -/
def KB.add (kb : KB) (context : List String) (spans : List (Nat × Nat))
    (answers : Option (List String)) (dataset : String) :
    Except (String × KB) (Nat × KB) :=
  let kb0 := { kb with ordered := false }
  if spans.length = 0 then
    .error ("each context should at least have one point of interest.", kb0)
  else
    let kb4 := KB.addCore (KB.addOffsets (KB.addCreate kb0 dataset) dataset) context spans dataset
    match answers with
    | none => KB.finishAdd kb4 context spans dataset
    | some as =>
      if kb4.answersArr.isEmpty then KB.finishAdd kb4 context spans dataset
      else if as.length ≠ spans.length then
        .error ("answers must tail -f align with spans", kb4)
      else
        KB.finishAdd (KB.addAnswers kb4 dataset as) context spans dataset

/-- `KB.context(i, dataset)`: slice of the packed context array between
`offsets[i]` and `offsets[i+1]` (or the array end for the last context);
Python list indexing semantics, so negative `i` wraps. -/
def KB.context (kb : KB) (i : Int) (dataset : String) : Option (List Nat) :=
  match dlookup kb.context_offsets dataset with
  | none => none
  | some offs =>
    let ctxt := dgetD kb.contexts dataset []
    match pyIdx offs.length i with
    | none => none
    | some j =>
      let offset := offs.getD j 0
      let e :=
        if i + 1 < (offs.length : Int) then
          match pyIdx offs.length (i + 1) with
          | some j2 => offs.getD j2 0
          | none => 0
        else ctxt.length
      some (listSlice ctxt offset e)

/-- `KB.spans(i, dataset)`: parallel slices of the span start/end arrays,
resolved through the span offset table. -/
def KB.spans (kb : KB) (i : Int) (dataset : String) : Option (List Nat × List Nat) :=
  match dlookup kb.span_offsets dataset with
  | none => none
  | some offs =>
    let sts := dgetD kb.starts dataset []
    let ens := dgetD kb.ends dataset []
    match pyIdx offs.length i with
    | none => none
    | some j =>
      let offset := offs.getD j 0
      let e :=
        if i + 1 < (offs.length : Int) then
          match pyIdx offs.length (i + 1) with
          | some j2 => offs.getD j2 0
          | none => 0
        else sts.length
      some (listSlice sts offset e, listSlice ens offset e)

/-- `KB.answers(i, dataset)`.  The branch condition `if self.__answers:`
tests the whole answers dict for non-emptiness.  The fallback branch is
only reached when that dict is empty, in which case the preceding
`self.__span_offsets[dataset][i]` lookup has already raised `KeyError`
(the six per-dataset entries are created together); moreover the fallback
itself calls `self.context(dataset, i)` with swapped arguments, which
raises.  It is therefore modelled as `none`. -/
def KB.answers (kb : KB) (i : Int) (dataset : String) : Option (List Nat) :=
  match dlookup kb.span_offsets dataset with
  | none => none
  | some offs =>
    let ans := dgetD kb.answersArr dataset []
    match pyIdx offs.length i with
    | none => none
    | some j =>
      let offset := offs.getD j 0
      let e :=
        if i + 1 < (offs.length : Int) then
          match pyIdx offs.length (i + 1) with
          | some j2 => offs.getD j2 0
          | none => 0
        else ans.length
      if kb.answersArr.isEmpty then none
      else some (listSlice ans offset e)

/-- Stable insertion of an index into an ascending argsorted index list:
the new index goes in front of the first entry whose key is not strictly
smaller, so among equal keys the freshly inserted index comes first. -/
def insertIdxSorted (key : Nat → Nat) (i : Nat) : List Nat → List Nat
  | [] => [i]
  | j :: rest => if key j < key i then j :: insertIdxSorted key i rest else i :: j :: rest

/-- Stable ascending insertion argsort of an index list. -/
def insertionArgsort (key : Nat → Nat) (idxs : List Nat) : List Nat :=
  idxs.foldr (insertIdxSorted key) []

/-- `np.argsort(count)` modelled as the stable ascending argsort (numpy's
quicksort falls back to insertion sort on the small arrays exercised
here, and insertion sort is stable): the indices `0..n-1` sorted by count
value, ties keeping index order. -/
def argsort (l : List Nat) : List Nat :=
  insertionArgsort (fun k => l.getD k 0) (List.range l.length)

/-- The Python loop `for i, k in enumerate(sorted): mapping[k] = i`. -/
def buildMappingAux (m : List Nat) (i : Nat) : List Nat → List Nat
  | [] => m
  | k :: rest => buildMappingAux (m.set k i) (i + 1) rest

/-- The descending id order `sorted = np.argsort(self.__count)[::-1]`. -/
def KB.freqOrder (kb : KB) : List Nat :=
  (argsort kb.count).reverse

/-- The remap table built by `for i, k in enumerate(sorted): mapping[k] = i`
over `mapping = [0 for _ in range(len(self.__vocab))]`: the permutation of
ids that `order_vocab_by_freq` applies. -/
def KB.freqMapping (kb : KB) : List Nat :=
  buildMappingAux (List.replicate kb.vocab.length 0) 0 kb.freqOrder

/-- `KB.order_vocab_by_freq`: guarded by the `ordered` sentinel; computes
`sorted = np.argsort(count)[::-1]`, the remap table, the reordered
vocabulary and counts, rewrites the symbol→id map and every stored context
array through the remap table, and sets the sentinel. -/
def KB.order_vocab_by_freq (kb : KB) : KB :=
  if kb.ordered then kb
  else
    { kb with
      vocab := kb.freqOrder.map (fun k => kb.vocab.getD k ""),
      count := kb.freqOrder.map (fun k => kb.count.getD k 0),
      ids := kb.ids.map (fun p => (p.1, kb.freqMapping.getD p.2 0)),
      contexts := kb.contexts.map (fun p => (p.1, p.2.map (fun v => kb.freqMapping.getD v 0))),
      ordered := true }

/-- `KB.id(word, fallback)`. -/
def KB.id (kb : KB) (word : String) (fallback : Int) : Int :=
  match dlookup kb.ids word with
  | some i => (i : Int)
  | none => fallback

/-- State reached after an `add` call, whether it returned or raised
(the Python object keeps all mutations made before an exception). -/
def addState (r : Except (String × KB) (Nat × KB)) : KB :=
  match r with
  | .ok p => p.2
  | .error p => p.2

/-- Whether an `add` call returned normally. -/
def exIsOk {ε α : Type} : Except ε α → Bool
  | .ok _ => true
  | .error _ => false

/-- The `FactKB` object state: private fields of the Python class. -/
structure FactKB where
  kb : KB
  entity_vocab : List String
  entity_ids : List (String × Nat)
  entity_ctxt : List (String × List (List Nat))
  entity_ctxt_span : List (String × List (List (Nat × Nat)))
  facts : List (String × List Nat)

/-- Freshly constructed `FactKB()`. -/
def FactKB.init : FactKB :=
  { kb := KB.init, entity_vocab := [], entity_ids := [],
    entity_ctxt := [], entity_ctxt_span := [], facts := [] }

/-- Python's `l[id].append(x)` on a nested list (in range in reachable
states thanks to the entity-index alignment invariant). -/
def nestedAppend {α : Type} (l : List (List α)) (i : Nat) (x : α) : List (List α) :=
  l.set i (l.getD i [] ++ [x])

/-- Body of the `for e, (start, end) in zip(entities, entity_spans)` loop
of `FactKB.add`: intern a newly seen entity (backfilling one empty mention
list per already-existing partition), then record the mention. -/
def FactKB.addMention (fkb : FactKB) (fact_id : Nat) (dataset : String)
    (e : String) (sp : Nat × Nat) : FactKB :=
  let fkb1 :=
    if dcontains fkb.entity_ids e then fkb
    else
      { fkb with
        entity_ids := fkb.entity_ids ++ [(e, fkb.entity_vocab.length)],
        entity_vocab := fkb.entity_vocab ++ [e],
        entity_ctxt := fkb.entity_ctxt.map (fun p => (p.1, p.2 ++ [[]])),
        entity_ctxt_span := fkb.entity_ctxt_span.map (fun p => (p.1, p.2 ++ [[]])) }
  let eid := (dlookup fkb1.entity_ids e).getD 0
  { fkb1 with
    entity_ctxt := dset fkb1.entity_ctxt dataset
      (nestedAppend (dgetD fkb1.entity_ctxt dataset []) eid fact_id),
    entity_ctxt_span := dset fkb1.entity_ctxt_span dataset
      (nestedAppend (dgetD fkb1.entity_ctxt_span dataset []) eid sp),
    facts := dset fkb1.facts dataset (dgetD fkb1.facts dataset [] ++ [fact_id]) }

/-- `'_'.join(fact[span[0]:span[1]])`: the default entity name derived
from a span. -/
def spanName (fact : List String) (sp : Nat × Nat) : String :=
  String.intercalate "_" (listSlice fact sp.1 sp.2)

/-- `FactKB.add(fact, entity_spans, entities, dataset)` for a fact already
given as a token list.  Checks the entities/spans length assert, derives
default entity names when `entities is None`, delegates to `KB.add` with
the entity names as answers (propagating its exception and state), lazily
creates the per-partition entry (backfilling one empty mention list per
entity already interned), then runs the mention loop. -/
def FactKB.addFactsCreate (fkb : FactKB) (dataset : String) : FactKB :=
  if dcontains fkb.facts dataset then fkb
  else
    { fkb with
      facts := fkb.facts ++ [(dataset, [])],
      entity_ctxt := fkb.entity_ctxt ++
        [(dataset, List.replicate fkb.entity_ids.length [])],
      entity_ctxt_span := fkb.entity_ctxt_span ++
        [(dataset, List.replicate fkb.entity_ids.length [])] }

/-- The entity-index update of `FactKB.add` once the inner `KB.add` has
returned `fact_id`: lazy per-partition creation followed by the mention
loop. -/
def FactKB.addEntities (fkb : FactKB) (fact_id : Nat) (es : List String)
    (entity_spans : List (Nat × Nat)) (dataset : String) : FactKB :=
  (es.zip entity_spans).foldl
    (fun acc q => FactKB.addMention acc fact_id dataset q.1 q.2)
    (fkb.addFactsCreate dataset)

def FactKB.add (fkb : FactKB) (fact : List String) (entity_spans : List (Nat × Nat))
    (entities : Option (List String)) (dataset : String) :
    Except (String × FactKB) (Nat × FactKB) :=
  let go := fun (es : List String) =>
    match fkb.kb.add fact entity_spans (some es) dataset with
    | .error p => .error (p.1, { fkb with kb := p.2 })
    | .ok p =>
      .ok (p.1, FactKB.addEntities { fkb with kb := p.2 } p.1 es entity_spans dataset)
  match entities with
  | some es =>
    if es.length ≠ entity_spans.length then
      .error ("Need to provide entity names for all spans.", fkb)
    else go es
  | none => go (entity_spans.map (spanName fact))

/-- `FactKB.facts_about(entity, dataset)`: a string is resolved through
the entity map (absent name yields `[]`); an id indexes the per-partition
mention array directly. -/
def FactKB.facts_about (fkb : FactKB) (entity : String ⊕ Nat) (dataset : String) :
    Option (List Nat) :=
  match entity with
  | .inl s =>
    match dlookup fkb.entity_ids s with
    | none => some []
    | some eid => (dlookup fkb.entity_ctxt dataset).bind (fun a => a.get? eid)
  | .inr eid => (dlookup fkb.entity_ctxt dataset).bind (fun a => a.get? eid)

/-- `FactKB.fact_entities(fact_id, dataset)`: returns
`self.__entity_ctxt[dataset][fact_id], self.__entity_ctxt_span[dataset][fact_id]`
verbatim — note both arrays are indexed by entity id, and the code indexes
them with the given `fact_id`. -/
def FactKB.fact_entities (fkb : FactKB) (fact_id : Nat) (dataset : String) :
    Option (List Nat × List (Nat × Nat)) :=
  match (dlookup fkb.entity_ctxt dataset).bind (fun a => a.get? fact_id),
      (dlookup fkb.entity_ctxt_span dataset).bind (fun b => b.get? fact_id) with
  | some x, some y => some (x, y)
  | _, _ => none

/-- State after a `FactKB.add` call, whether it returned or raised. -/
def factAddState (r : Except (String × FactKB) (Nat × FactKB)) : FactKB :=
  match r with
  | .ok p => p.2
  | .error p => p.2

/-! ### Association-list (dict) lemmas -/

/-- Start offsets of consecutive blocks with the given lengths:
`startOffsets [a, b, c] = [0, a, a + b]`. -/
def startOffsets : List Nat → List Nat
  | [] => []
  | n :: rest => 0 :: (startOffsets rest).map (n + ·)
/-- The fields of the store not touched by vocabulary interning. -/
def StoreFrame (kb kb' : KB) : Prop :=
  kb'.contexts = kb.contexts ∧ kb'.starts = kb.starts ∧ kb'.ends = kb.ends ∧
  kb'.answersArr = kb.answersArr ∧ kb'.context_offsets = kb.context_offsets ∧
  kb'.span_offsets = kb.span_offsets ∧ kb'.ordered = kb.ordered
/-- Consistency of the symbol→id map with the vocabulary sequence. -/
def IdsOK (kb : KB) : Prop :=
  ∀ p ∈ kb.ids, p.2 < kb.vocab.length ∧ kb.vocab.getD p.2 "" = p.1
/-- The store state after the sentinel reset, lazy creation and offset
recording of an `add` call, before the payload is written. -/
def KB.addPre (kb : KB) (ds : String) : KB :=
  (({ kb with ordered := false }).addCreate ds).addOffsets ds
/-- The token ids an `add` call assigns to its context. -/
def KB.addToks (kb : KB) (ds : String) (context : List String) : List Nat :=
  ((kb.addPre ds).internAll context).1
/-- The state in which a mismatched-answers `add` raises: all stages up to
and including the payload step have already run. -/
def KB.addMismatchState (kb : KB) (context : List String) (spans : List (Nat × Nat))
    (ds : String) : KB :=
  (kb.addPre ds).addCore context spans ds
/-- One request to `KB.add` (into a fixed partition). -/
structure AddReq where
  context : List String
  spans : List (Nat × Nat)
  answers : Option (List String)
/-- The placeholder request used by `List.getD`. -/
def reqDefault : AddReq :=
  ⟨[], [], none⟩
/-- The precondition under which an `add` call succeeds: at least one span,
and answers, when given, aligned with the spans. -/
def reqOkB (r : AddReq) : Bool :=
  !r.spans.isEmpty &&
    (match r.answers with
     | none => true
     | some as => as.length == r.spans.length)
/-- Apply one `add` request, keeping the resulting store state whether it
returned or raised. -/
def addStep (d : String) (kb : KB) (r : AddReq) : KB :=
  addState (kb.add r.context r.spans r.answers d)
/-- Run a sequence of `add` requests against a fresh store. -/
def runAdds (d : String) (reqs : List AddReq) : KB :=
  reqs.foldl (addStep d) KB.init
/-- Abstraction of one partition's packed storage: the flat arrays are the
concatenations of the per-context blocks and the offset tables are the
block start offsets; the six per-partition dict entries exist exactly when
at least one context was added. -/
def AbsVals (kb : KB) (d : String) (recs : List (List Nat × List (Nat × Nat))) : Prop :=
  dgetD kb.contexts d [] = (recs.map Prod.fst).flatten ∧
  dgetD kb.context_offsets d [] = startOffsets (recs.map (fun r => r.1.length)) ∧
  dgetD kb.starts d [] = (recs.map (fun r => r.2.map Prod.fst)).flatten ∧
  dgetD kb.ends d [] = (recs.map (fun r => r.2.map Prod.snd)).flatten ∧
  dgetD kb.span_offsets d [] = startOffsets (recs.map (fun r => r.2.length)) ∧
  dcontains kb.contexts d = !recs.isEmpty ∧
  dcontains kb.context_offsets d = !recs.isEmpty ∧
  dcontains kb.starts d = !recs.isEmpty ∧
  dcontains kb.ends d = !recs.isEmpty ∧
  dcontains kb.answersArr d = !recs.isEmpty ∧
  dcontains kb.span_offsets d = !recs.isEmpty
/-- The store models a request sequence on partition `d`: some id-level
record list realizes the packed layout, record spans are the requested
spans, and record token ids decode through the current vocabulary to the
requested tokens. -/
def Models (kb : KB) (d : String) (reqs : List AddReq) : Prop :=
  IdsOK kb ∧
  ∃ recs, AbsVals kb d recs ∧ recs.length = reqs.length ∧
    ∀ i, i < reqs.length →
      (recs.getD i ([], [])).2 = (reqs.getD i reqDefault).spans ∧
      ((recs.getD i ([], [])).1).map (fun v => kb.vocab.getD v "") =
        (reqs.getD i reqDefault).context ∧
      ∀ v ∈ (recs.getD i ([], [])).1, v < kb.vocab.length
/-- Alignment invariant of the entity-fact index: the entity map and the
entity vocabulary agree in size, every partition's mention-fact-list array
and mention-span-list array have exactly one slot per entity, and the
three per-partition dicts share the same keys. -/
def FactInv (fkb : FactKB) : Prop :=
  fkb.entity_ids.length = fkb.entity_vocab.length ∧
  (∀ p ∈ fkb.entity_ctxt, p.2.length = fkb.entity_vocab.length) ∧
  (∀ p ∈ fkb.entity_ctxt_span, p.2.length = fkb.entity_vocab.length) ∧
  fkb.entity_ctxt.map Prod.fst = fkb.facts.map Prod.fst ∧
  fkb.entity_ctxt_span.map Prod.fst = fkb.facts.map Prod.fst

theorem dlookup_cons {α : Type} (k' : String) (v : α) (d : List (String × α)) (k : String) :
    dlookup ((k', v) :: d) k = if k' = k then some v else dlookup d k := by
  by_cases h : k' = k
  · simp [dlookup, h]
  · have hb : ((k', v).1 == k) = false := by simpa using h
    simp [dlookup, List.find?_cons_of_neg, hb, h]

theorem dcontains_cons {α : Type} (k' : String) (v : α) (d : List (String × α)) (k : String) :
    dcontains ((k', v) :: d) k = if k' = k then true else dcontains d k := by
  by_cases h : k' = k <;> simp [dcontains, dlookup_cons, h]

theorem dlookup_append_of_none {α : Type} {d₁ : List (String × α)} {k : String}
    (d₂ : List (String × α)) (h : dlookup d₁ k = none) :
    dlookup (d₁ ++ d₂) k = dlookup d₂ k := by
  have hf : d₁.find? (fun p => p.1 == k) = none := by
    simpa [dlookup] using h
  simp [dlookup, List.find?_append, hf]

theorem dlookup_append_of_some {α : Type} {d₁ : List (String × α)} {k : String} {v : α}
    (d₂ : List (String × α)) (h : dlookup d₁ k = some v) :
    dlookup (d₁ ++ d₂) k = some v := by
  obtain ⟨p, hp, hv⟩ : ∃ p, d₁.find? (fun q => q.1 == k) = some p ∧ p.2 = v := by
    simpa [dlookup] using h
  simp [dlookup, List.find?_append, hp, hv]

theorem dlookup_singleton {α : Type} (k : String) (v : α) :
    dlookup [(k, v)] k = some v := by
  simp [dlookup_cons]

theorem dcontains_false_lookup {α : Type} {d : List (String × α)} {k : String}
    (h : dcontains d k = false) : dlookup d k = none := by
  unfold dcontains at h
  cases hl : dlookup d k with
  | none => rfl
  | some v => rw [hl] at h; simp at h

theorem dlookup_mapset {α : Type} (d : List (String × α)) (k : String) (v : α) :
    dlookup (d.map (fun p => if p.1 == k then (k, v) else p)) k =
      if dcontains d k then some v else none := by
  induction d with
  | nil => rfl
  | cons p d ih =>
    obtain ⟨k', w⟩ := p
    by_cases h : k' = k
    · subst h
      simp [dlookup_cons, dcontains_cons]
    · have hb : (k' == k) = false := by simpa using h
      simp only [List.map_cons, hb, if_false, Bool.false_eq_true]
      rw [dlookup_cons, if_neg h, dcontains_cons, if_neg h, ih]

theorem dlookup_mapset_ne {α : Type} (d : List (String × α)) (k : String) (v : α)
    {k' : String} (h : k' ≠ k) :
    dlookup (d.map (fun p => if p.1 == k then (k, v) else p)) k' = dlookup d k' := by
  induction d with
  | nil => rfl
  | cons p d ih =>
    obtain ⟨k₀, w⟩ := p
    by_cases h0 : k₀ = k
    · subst h0
      simp only [List.map_cons, beq_self_eq_true, if_true]
      rw [dlookup_cons, dlookup_cons, if_neg (fun hh => h hh.symm),
        if_neg (fun hh => h hh.symm), ih]
    · have hb : (k₀ == k) = false := by simpa using h0
      simp only [List.map_cons, hb, Bool.false_eq_true, if_false]
      rw [dlookup_cons, dlookup_cons, ih]

theorem dlookup_dset_self {α : Type} (d : List (String × α)) (k : String) (v : α) :
    dlookup (dset d k v) k = some v := by
  unfold dset
  by_cases h : dcontains d k
  · simp only [h, if_true]
    rw [dlookup_mapset, if_pos h]
  · simp only [h, Bool.false_eq_true, if_false]
    rw [dlookup_append_of_none _ (dcontains_false_lookup (by simpa using h)),
      dlookup_singleton]

theorem dlookup_dset_ne {α : Type} (d : List (String × α)) (k : String) (v : α)
    {k' : String} (h : k' ≠ k) :
    dlookup (dset d k v) k' = dlookup d k' := by
  unfold dset
  by_cases hc : dcontains d k
  · simp only [hc, if_true]
    exact dlookup_mapset_ne d k v h
  · simp only [hc, Bool.false_eq_true, if_false]
    cases hl : dlookup d k' with
    | none =>
      rw [dlookup_append_of_none _ hl, dlookup_cons, if_neg (fun hh => h hh.symm)]
      rfl
    | some w => exact dlookup_append_of_some _ hl

theorem dgetD_dset_self {α : Type} (d : List (String × α)) (k : String) (v : α) (dflt : α) :
    dgetD (dset d k v) k dflt = v := by
  simp [dgetD, dlookup_dset_self]

theorem dcontains_dset_self {α : Type} (d : List (String × α)) (k : String) (v : α) :
    dcontains (dset d k v) k = true := by
  simp [dcontains, dlookup_dset_self]

theorem dcontains_dset_ne {α : Type} (d : List (String × α)) (k : String) (v : α)
    {k' : String} (h : k' ≠ k) :
    dcontains (dset d k v) k' = dcontains d k' := by
  simp [dcontains, dlookup_dset_ne d k v h]

theorem dlookup_map_val {α β : Type} (f : α → β) (d : List (String × α)) (k : String) :
    dlookup (d.map (fun p => (p.1, f p.2))) k = (dlookup d k).map f := by
  induction d with
  | nil => rfl
  | cons p d ih =>
    obtain ⟨k₀, w⟩ := p
    by_cases h : k₀ = k
    · subst h; simp [dlookup_cons]
    · simp only [List.map_cons]
      rw [dlookup_cons, dlookup_cons, if_neg h, if_neg h, ih]

theorem dgetD_append_singleton_length {α : Type} (d : List (String × List α)) (k : String) :
    (dgetD (d ++ [(k, [])]) k []).length = (dgetD d k []).length := by
  cases hl : dlookup d k with
  | none => simp [dgetD, dlookup_append_of_none _ hl, dlookup_singleton, hl]
  | some w => simp [dgetD, dlookup_append_of_some _ hl, hl]

theorem dcontains_append_singleton {α : Type} (d : List (String × α)) (k k' : String) (v : α) :
    dcontains (d ++ [(k, v)]) k' = (dcontains d k' || (k == k')) := by
  cases hl : dlookup d k' with
  | none =>
    rw [dcontains, dlookup_append_of_none _ hl, dlookup_cons]
    by_cases h : k = k'
    · simp [h, dcontains, hl]
    · have hb : (k == k') = false := by simpa using h
      have he : dlookup ([] : List (String × α)) k' = none := rfl
      simp [h, dcontains, hl, hb, he]
  | some w =>
    rw [dcontains, dlookup_append_of_some _ hl]
    simp [dcontains, hl]

/-! ### Indexing, slicing and offset-table lemmas -/

theorem pyIdx_coe (n i : Nat) (h : i < n) : pyIdx n (i : Int) = some i := by
  have h0 : (0 : Int) ≤ (i : Int) := Int.ofNat_nonneg i
  have h1 : (i : Int) < (n : Int) := by exact_mod_cast h
  simp [pyIdx, h0, h1]

theorem pyIdx_none {n : Nat} {i : Int} (h : i < -(n : Int) ∨ (n : Int) ≤ i) :
    pyIdx n i = none := by
  rcases h with h | h
  · have h2 : ¬(0 : Int) ≤ i := by omega
    have h3 : ¬-(n : Int) ≤ i := by omega
    simp [pyIdx, h2, h3]
  · have h2 : ¬(i : Int) < (n : Int) := by omega
    by_cases h0 : (0 : Int) ≤ i
    · simp [pyIdx, h0, h2]
    · omega

theorem pyIdx_neg {n : Nat} {i : Int} (h1 : -(n : Int) ≤ i) (h2 : i < 0) :
    pyIdx n i = some ((n : Int) + i).toNat := by
  have h0 : ¬(0 : Int) ≤ i := by omega
  simp [pyIdx, h0, h1]

theorem listSlice_map {α β : Type} (f : α → β) (l : List α) (a b : Nat) :
    listSlice (l.map f) a b = (listSlice l a b).map f := by
  simp [listSlice]

theorem mem_of_mem_listSlice {α : Type} {x : α} {l : List α} {a b : Nat}
    (h : x ∈ listSlice l a b) : x ∈ l :=
  List.mem_of_mem_take (List.mem_of_mem_drop h)

theorem listSlice_append_shift {α : Type} (x l : List α) (p q : Nat) :
    listSlice (x ++ l) (x.length + p) (x.length + q) = listSlice l p q := by
  simp [listSlice, List.take_append, List.drop_append]

theorem getD_of_prefix {α : Type} {l₁ l₂ : List α} (h : l₁ <+: l₂) {i : Nat}
    (hi : i < l₁.length) (d : α) : l₂.getD i d = l₁.getD i d := by
  obtain ⟨t, rfl⟩ := h
  rw [List.getD_append _ _ _ _ hi]

theorem getD_map_lt {α β : Type} (f : α → β) (l : List α) {i : Nat} (h : i < l.length)
    (d : β) (d' : α) : (l.map f).getD i d = f (l.getD i d') := by
  rw [List.getD_eq_getElem?_getD, List.getD_eq_getElem?_getD, List.getElem?_map,
    List.getElem?_eq_getElem h]
  rfl

theorem length_startOffsets (ls : List Nat) : (startOffsets ls).length = ls.length := by
  induction ls with
  | nil => rfl
  | cons n rest ih => simp [startOffsets, ih]

theorem startOffsets_append_one (ls : List Nat) (n : Nat) :
    startOffsets (ls ++ [n]) = startOffsets ls ++ [ls.sum] := by
  induction ls with
  | nil => rfl
  | cons a rest ih =>
    show 0 :: (startOffsets (rest ++ [n])).map (a + ·) =
      (0 :: (startOffsets rest).map (a + ·)) ++ [(a :: rest).sum]
    rw [ih]
    simp [List.map_append, List.sum_cons]

theorem startOffsets_getD (ls : List Nat) (i : Nat) (h : i < ls.length) :
    (startOffsets ls).getD i 0 = (ls.take i).sum := by
  induction ls generalizing i with
  | nil => simp at h
  | cons a rest ih =>
    cases i with
    | zero => rfl
    | succ i =>
      have hi : i < rest.length := by simpa using h
      have hm : i < (startOffsets rest).length := by rwa [length_startOffsets]
      simp only [startOffsets, List.getD_cons_succ, List.take_succ_cons, List.sum_cons]
      rw [getD_map_lt _ _ hm 0 0, ih i hi]

theorem slice_flatten {α : Type} (ls : List (List α)) (i : Nat) (h : i < ls.length) :
    listSlice ls.flatten (((ls.take i).map List.length).sum)
      ((((ls.take i).map List.length).sum) + (ls.getD i []).length) = ls.getD i [] := by
  induction ls generalizing i with
  | nil => simp at h
  | cons a rest ih =>
    cases i with
    | zero =>
      simp only [List.take_zero, List.map_nil, List.sum_nil, List.getD_cons_zero,
        List.flatten_cons, Nat.zero_add]
      simp [listSlice, List.take_left]
    | succ i =>
      have hi : i < rest.length := by simpa using h
      simp only [List.take_succ_cons, List.map_cons, List.sum_cons, List.getD_cons_succ,
        List.flatten_cons]
      have ha : a.length + ((rest.take i).map List.length).sum + (rest.getD i []).length =
          a.length + (((rest.take i).map List.length).sum + (rest.getD i []).length) := by
        omega
      rw [ha, listSlice_append_shift, ih i hi]

/-! ### Frame and vocabulary lemmas about the pieces of `KB.add` -/

theorem storeFrame_refl (kb : KB) : StoreFrame kb kb :=
  ⟨rfl, rfl, rfl, rfl, rfl, rfl, rfl⟩

theorem storeFrame_trans {k1 k2 k3 : KB} (h1 : StoreFrame k1 k2) (h2 : StoreFrame k2 k3) :
    StoreFrame k1 k3 := by
  obtain ⟨a1, a2, a3, a4, a5, a6, a7⟩ := h1
  obtain ⟨b1, b2, b3, b4, b5, b6, b7⟩ := h2
  exact ⟨b1.trans a1, b2.trans a2, b3.trans a3, b4.trans a4, b5.trans a5, b6.trans a6,
    b7.trans a7⟩

theorem dlookup_some_mem {α : Type} {d : List (String × α)} {k : String} {v : α}
    (h : dlookup d k = some v) : (k, v) ∈ d := by
  unfold dlookup at h
  obtain ⟨q, hq, hv⟩ := Option.map_eq_some'.mp h
  have hmem := List.mem_of_find?_eq_some hq
  have hkey := List.find?_some hq
  have hk : q.1 = k := by simpa using hkey
  have hqe : q = (k, v) := by
    cases q
    simp only [Prod.mk.injEq]
    exact ⟨hk, hv⟩
  rwa [hqe] at hmem

theorem getD_append_length {α : Type} (l : List α) (x d : α) :
    (l ++ [x]).getD l.length d = x := by
  rw [List.getD_eq_getElem?_getD, List.getElem?_append_right (Nat.le_refl _)]
  simp

theorem add_to_vocab_spec (kb : KB) (key : String) (h : IdsOK kb) :
    StoreFrame kb (kb.add_to_vocab key).2 ∧ IdsOK (kb.add_to_vocab key).2 ∧
    kb.vocab <+: (kb.add_to_vocab key).2.vocab ∧
    (kb.add_to_vocab key).1 < (kb.add_to_vocab key).2.vocab.length ∧
    (kb.add_to_vocab key).2.vocab.getD (kb.add_to_vocab key).1 "" = key := by
  unfold KB.add_to_vocab
  by_cases hc : dcontains kb.ids key
  · obtain ⟨v, hv⟩ : ∃ v, dlookup kb.ids key = some v := by
      unfold dcontains at hc
      cases hl : dlookup kb.ids key with
      | none => rw [hl] at hc; simp at hc
      | some v => exact ⟨v, rfl⟩
    obtain ⟨hlt, hget⟩ := h _ (dlookup_some_mem hv)
    simp only [hc, if_true, hv, Option.getD_some]
    exact ⟨⟨rfl, rfl, rfl, rfl, rfl, rfl, rfl⟩, fun p hp => h p hp, List.prefix_refl _,
      hlt, hget⟩
  · have hnone : dlookup kb.ids key = none := dcontains_false_lookup (by simpa using hc)
    have hl : dlookup (kb.ids ++ [(key, kb.vocab.length)]) key = some kb.vocab.length := by
      rw [dlookup_append_of_none _ hnone, dlookup_singleton]
    simp only [hc, Bool.false_eq_true, if_false, hl, Option.getD_some]
    refine ⟨⟨rfl, rfl, rfl, rfl, rfl, rfl, rfl⟩, ?_, List.prefix_append _ _, ?_, ?_⟩
    · intro p hp
      rcases List.mem_append.mp hp with hp | hp
      · obtain ⟨hlt, hget⟩ := h p hp
        constructor
        · calc p.2 < kb.vocab.length := hlt
            _ ≤ (kb.vocab ++ [key]).length := by simp
        · rw [List.getD_append _ _ _ _ hlt, hget]
      · have : p = (key, kb.vocab.length) := by simpa using hp
        subst this
        constructor
        · simp
        · exact getD_append_length _ _ _
    · simp
    · exact getD_append_length _ _ _

theorem add_to_answer_vocab_frame (kb : KB) (key : String) :
    StoreFrame kb (kb.add_to_answer_vocab key).2 ∧
    (kb.add_to_answer_vocab key).2.vocab = kb.vocab ∧
    (kb.add_to_answer_vocab key).2.ids = kb.ids := by
  unfold KB.add_to_answer_vocab
  by_cases hc : dcontains kb.answer_ids key
  · rw [if_pos hc]
    exact ⟨⟨rfl, rfl, rfl, rfl, rfl, rfl, rfl⟩, rfl, rfl⟩
  · rw [if_neg hc]
    exact ⟨⟨rfl, rfl, rfl, rfl, rfl, rfl, rfl⟩, rfl, rfl⟩

theorem internAll_spec (ws : List String) (kb : KB) (h : IdsOK kb) :
    StoreFrame kb (kb.internAll ws).2 ∧ IdsOK (kb.internAll ws).2 ∧
    kb.vocab <+: (kb.internAll ws).2.vocab ∧
    ((kb.internAll ws).1).map (fun v => (kb.internAll ws).2.vocab.getD v "") = ws ∧
    ∀ v ∈ (kb.internAll ws).1, v < (kb.internAll ws).2.vocab.length := by
  induction ws generalizing kb with
  | nil => exact ⟨storeFrame_refl kb, h, List.prefix_refl _, rfl, by simp [KB.internAll]⟩
  | cons w ws ih =>
    obtain ⟨hf, hids, hpre, hlt, hget⟩ := add_to_vocab_spec kb w h
    obtain ⟨ihf, ihids, ihpre, ihdec, ihbound⟩ := ih (kb.add_to_vocab w).2 hids
    have h1 : (kb.internAll (w :: ws)).1 =
        (kb.add_to_vocab w).1 :: (((kb.add_to_vocab w).2).internAll ws).1 := rfl
    have h2 : (kb.internAll (w :: ws)).2 = (((kb.add_to_vocab w).2).internAll ws).2 := rfl
    rw [h1, h2]
    refine ⟨storeFrame_trans hf ihf, ihids, hpre.trans ihpre, ?_, ?_⟩
    · rw [List.map_cons, ihdec, getD_of_prefix ihpre hlt, hget]
    · intro v hv
      rcases List.mem_cons.mp hv with hv | hv
      · subst hv
        calc (kb.add_to_vocab w).1 < (kb.add_to_vocab w).2.vocab.length := hlt
          _ ≤ _ := ihpre.length_le
      · exact ihbound v hv

theorem pushAnswer_spec (kb : KB) (dataset a : String) (h : IdsOK kb) :
    IdsOK (kb.pushAnswer dataset a) ∧ kb.vocab <+: (kb.pushAnswer dataset a).vocab ∧
    (kb.pushAnswer dataset a).contexts = kb.contexts ∧
    (kb.pushAnswer dataset a).starts = kb.starts ∧
    (kb.pushAnswer dataset a).ends = kb.ends ∧
    (kb.pushAnswer dataset a).context_offsets = kb.context_offsets ∧
    (kb.pushAnswer dataset a).span_offsets = kb.span_offsets ∧
    (kb.pushAnswer dataset a).ordered = kb.ordered := by
  obtain ⟨⟨f1, f2, f3, f4, f5, f6, f7⟩, hv, hi⟩ := add_to_answer_vocab_frame kb a
  have hids0 : IdsOK (kb.add_to_answer_vocab a).2 := by
    unfold IdsOK
    rw [hv, hi]
    exact h
  obtain ⟨⟨g1, g2, g3, g4, g5, g6, g7⟩, hids2, hpre2, _, _⟩ :=
    add_to_vocab_spec
      { (kb.add_to_answer_vocab a).2 with
        answersArr := dset (kb.add_to_answer_vocab a).2.answersArr dataset
          (dgetD (kb.add_to_answer_vocab a).2.answersArr dataset []
            ++ [(kb.add_to_answer_vocab a).1]) } a hids0
  refine ⟨hids2, ?_, g1.trans f1, g2.trans f2, g3.trans f3, g5.trans f5, g6.trans f6,
    g7.trans f7⟩
  rw [← hv]
  exact hpre2

theorem addAnswers_spec (as : List String) (kb : KB) (dataset : String) (h : IdsOK kb) :
    IdsOK (kb.addAnswers dataset as) ∧ kb.vocab <+: (kb.addAnswers dataset as).vocab ∧
    (kb.addAnswers dataset as).contexts = kb.contexts ∧
    (kb.addAnswers dataset as).starts = kb.starts ∧
    (kb.addAnswers dataset as).ends = kb.ends ∧
    (kb.addAnswers dataset as).context_offsets = kb.context_offsets ∧
    (kb.addAnswers dataset as).span_offsets = kb.span_offsets ∧
    (kb.addAnswers dataset as).ordered = kb.ordered := by
  induction as generalizing kb with
  | nil => exact ⟨h, List.prefix_refl _, rfl, rfl, rfl, rfl, rfl, rfl⟩
  | cons a rest ih =>
    obtain ⟨hids1, hpre1, p3, p4, p5, p6, p7, p8⟩ := pushAnswer_spec kb dataset a h
    obtain ⟨ihids, ihpre, ih3, ih4, ih5, ih6, ih7, ih8⟩ := ih (kb.pushAnswer dataset a) hids1
    have hstep : kb.addAnswers dataset (a :: rest) =
        (kb.pushAnswer dataset a).addAnswers dataset rest := rfl
    rw [hstep]
    exact ⟨ihids, hpre1.trans ihpre, ih3.trans p3, ih4.trans p4, ih5.trans p5,
      ih6.trans p6, ih7.trans p7, ih8.trans p8⟩

theorem dgetD_append_nil_self {α : Type} (d : List (String × List α)) (k : String) :
    dgetD (d ++ [(k, [])]) k [] = dgetD d k [] := by
  cases hl : dlookup d k with
  | none => simp [dgetD, dlookup_append_of_none _ hl, dlookup_singleton, hl]
  | some w => simp [dgetD, dlookup_append_of_some _ hl, hl]

theorem addCreate_spec (kb : KB) (ds : String) :
    (kb.addCreate ds).vocab = kb.vocab ∧
    (kb.addCreate ds).ids = kb.ids ∧
    (kb.addCreate ds).count = kb.count ∧
    (kb.addCreate ds).ordered = kb.ordered ∧
    dgetD (kb.addCreate ds).contexts ds [] = dgetD kb.contexts ds [] ∧
    dgetD (kb.addCreate ds).starts ds [] = dgetD kb.starts ds [] ∧
    dgetD (kb.addCreate ds).ends ds [] = dgetD kb.ends ds [] ∧
    dgetD (kb.addCreate ds).answersArr ds [] = dgetD kb.answersArr ds [] ∧
    dgetD (kb.addCreate ds).context_offsets ds [] = dgetD kb.context_offsets ds [] ∧
    dgetD (kb.addCreate ds).span_offsets ds [] = dgetD kb.span_offsets ds [] := by
  unfold KB.addCreate
  by_cases hc : dcontains kb.contexts ds
  · rw [if_pos hc]
    exact ⟨rfl, rfl, rfl, rfl, rfl, rfl, rfl, rfl, rfl, rfl⟩
  · rw [if_neg hc]
    exact ⟨rfl, rfl, rfl, rfl, dgetD_append_nil_self _ _, dgetD_append_nil_self _ _,
      dgetD_append_nil_self _ _, dgetD_append_nil_self _ _, dgetD_append_nil_self _ _,
      dgetD_append_nil_self _ _⟩

theorem addCreate_eq_of_contains {kb : KB} {ds : String}
    (h : dcontains kb.contexts ds = true) : kb.addCreate ds = kb := by
  unfold KB.addCreate
  rw [if_pos h]

theorem addCreate_answersArr_ne {kb : KB} (ds : String)
    (hax : dcontains kb.contexts ds = true → kb.answersArr ≠ []) :
    (kb.addCreate ds).answersArr ≠ [] := by
  unfold KB.addCreate
  by_cases hc : dcontains kb.contexts ds
  · rw [if_pos hc]
    exact hax hc
  · rw [if_neg hc]
    simp

theorem addCreate_answersArr_dcontains {kb : KB} {ds : String}
    (h : dcontains kb.contexts ds = false) :
    dcontains (kb.addCreate ds).answersArr ds = true := by
  unfold KB.addCreate
  rw [if_neg (by simp [h])]
  show dcontains (kb.answersArr ++ [(ds, [])]) ds = true
  rw [dcontains_append_singleton]
  simp

theorem addOffsets_spec (kb : KB) (ds : String) :
    (kb.addOffsets ds).vocab = kb.vocab ∧
    (kb.addOffsets ds).ids = kb.ids ∧
    (kb.addOffsets ds).ordered = kb.ordered ∧
    (kb.addOffsets ds).contexts = kb.contexts ∧
    (kb.addOffsets ds).starts = kb.starts ∧
    (kb.addOffsets ds).ends = kb.ends ∧
    (kb.addOffsets ds).answersArr = kb.answersArr ∧
    dgetD (kb.addOffsets ds).context_offsets ds [] =
      dgetD kb.context_offsets ds [] ++ [(dgetD kb.contexts ds []).length] ∧
    dgetD (kb.addOffsets ds).span_offsets ds [] =
      dgetD kb.span_offsets ds [] ++ [(dgetD kb.starts ds []).length] ∧
    dcontains (kb.addOffsets ds).context_offsets ds = true ∧
    dcontains (kb.addOffsets ds).span_offsets ds = true :=
  ⟨rfl, rfl, rfl, rfl, rfl, rfl, rfl, dgetD_dset_self _ _ _ _, dgetD_dset_self _ _ _ _,
    dcontains_dset_self _ _ _, dcontains_dset_self _ _ _⟩

theorem addCore_spec (kb : KB) (context : List String) (spans : List (Nat × Nat))
    (ds : String) (h : IdsOK kb) :
    IdsOK (kb.addCore context spans ds) ∧
    kb.vocab <+: (kb.addCore context spans ds).vocab ∧
    dgetD (kb.addCore context spans ds).contexts ds [] =
      dgetD kb.contexts ds [] ++ (kb.internAll context).1 ∧
    dgetD (kb.addCore context spans ds).starts ds [] =
      dgetD kb.starts ds [] ++ spans.map Prod.fst ∧
    dgetD (kb.addCore context spans ds).ends ds [] =
      dgetD kb.ends ds [] ++ spans.map Prod.snd ∧
    (kb.addCore context spans ds).context_offsets = kb.context_offsets ∧
    (kb.addCore context spans ds).span_offsets = kb.span_offsets ∧
    (kb.addCore context spans ds).answersArr = kb.answersArr ∧
    (kb.addCore context spans ds).ordered = kb.ordered ∧
    ((kb.internAll context).1).map (fun v => (kb.addCore context spans ds).vocab.getD v "")
      = context ∧
    (∀ v ∈ (kb.internAll context).1, v < (kb.addCore context spans ds).vocab.length) ∧
    dcontains (kb.addCore context spans ds).contexts ds = true ∧
    dcontains (kb.addCore context spans ds).starts ds = true ∧
    dcontains (kb.addCore context spans ds).ends ds = true := by
  obtain ⟨⟨f1, f2, f3, f4, f5, f6, f7⟩, hids, hpre, hdec, hbound⟩ :=
    internAll_spec context kb h
  unfold KB.addCore
  refine ⟨hids, hpre, ?_, ?_, ?_, ?_, ?_, ?_, f7, hdec, hbound, ?_, ?_, ?_⟩
  · show dgetD (dset (kb.internAll context).2.contexts ds
      (dgetD (kb.internAll context).2.contexts ds [] ++ (kb.internAll context).1)) ds [] = _
    rw [dgetD_dset_self, f1]
  · show dgetD (dset (kb.internAll context).2.starts ds
      (dgetD (kb.internAll context).2.starts ds [] ++ spans.map Prod.fst)) ds [] = _
    rw [dgetD_dset_self, f2]
  · show dgetD (dset (kb.internAll context).2.ends ds
      (dgetD (kb.internAll context).2.ends ds [] ++ spans.map Prod.snd)) ds [] = _
    rw [dgetD_dset_self, f3]
  · exact f5
  · exact f6
  · exact f4
  · exact dcontains_dset_self _ _ _
  · exact dcontains_dset_self _ _ _
  · exact dcontains_dset_self _ _ _

theorem add_to_vocab_frame (kb : KB) (key : String) :
    StoreFrame kb (kb.add_to_vocab key).2 := by
  unfold KB.add_to_vocab
  by_cases hc : dcontains kb.ids key
  · rw [if_pos hc]
    exact ⟨rfl, rfl, rfl, rfl, rfl, rfl, rfl⟩
  · rw [if_neg hc]
    exact ⟨rfl, rfl, rfl, rfl, rfl, rfl, rfl⟩

theorem internAll_frame (ws : List String) (kb : KB) :
    StoreFrame kb (kb.internAll ws).2 := by
  induction ws generalizing kb with
  | nil => exact storeFrame_refl kb
  | cons w ws ih =>
    exact storeFrame_trans (add_to_vocab_frame kb w) (ih (kb.add_to_vocab w).2)

theorem addCore_frame (kb : KB) (context : List String) (spans : List (Nat × Nat))
    (ds : String) :
    (kb.addCore context spans ds).context_offsets = kb.context_offsets ∧
    (kb.addCore context spans ds).span_offsets = kb.span_offsets ∧
    (kb.addCore context spans ds).answersArr = kb.answersArr ∧
    (kb.addCore context spans ds).ordered = kb.ordered := by
  obtain ⟨f1, f2, f3, f4, f5, f6, f7⟩ := internAll_frame context kb
  unfold KB.addCore
  exact ⟨f5, f6, f4, f7⟩

theorem add_mismatch_eq (kb : KB) (context : List String) (spans : List (Nat × Nat))
    (as : List String) (ds : String)
    (hs : spans.length ≠ 0) (ha : as.length ≠ spans.length)
    (hax : dcontains kb.contexts ds = true → kb.answersArr ≠ []) :
    kb.add context spans (some as) ds =
      .error ("answers must tail -f align with spans",
        kb.addMismatchState context spans ds) := by
  have hne : (kb.addMismatchState context spans ds).answersArr ≠ [] := by
    have h3 := (addCore_frame (kb.addPre ds) context spans ds).2.2.1
    unfold KB.addMismatchState
    rw [h3]
    show (({ kb with ordered := false } : KB).addCreate ds).answersArr ≠ []
    exact addCreate_answersArr_ne ds hax
  have hne' : ¬(kb.addMismatchState context spans ds).answersArr.isEmpty = true := by
    simpa [List.isEmpty_iff] using hne
  show (kb.add context spans (some as) ds) = _
  unfold KB.add KB.addMismatchState KB.addPre at *
  rw [if_neg hs]
  show (if _ = true then _ else if _ then _ else _) = _
  rw [if_neg hne', if_pos ha]

/-! ### Claim theorems (first batch) -/

/-- C9: for every store state, adding a context with an empty spans list
raises the validation error "each context should at least have one point
of interest." and leaves `num_contexts(dataset)` unchanged (only the
`ordered` sentinel, cleared before the check, differs). -/
theorem c9_empty_spans_rejected (kb : KB) (context : List String)
    (answers : Option (List String)) (ds : String) :
    kb.add context [] answers ds =
      .error ("each context should at least have one point of interest.",
        { kb with ordered := false }) ∧
    (addState (kb.add context [] answers ds)).num_contexts ds = kb.num_contexts ds :=
  ⟨rfl, rfl⟩

/-- C2 (code bug evidence): after `add(["a","b","c"], [(1,2)], answers=None)`
on a fresh store the call succeeds, but `answers(0)` returns the empty
sequence rather than the token at the span's start position (`"b"`, id 1):
the fallback branch is guarded by non-emptiness of the whole answers dict,
which is always non-empty once any context was added. -/
theorem c2_answers_default_divergence :
    exIsOk (KB.init.add ["a", "b", "c"] [(1, 2)] none "train") = true ∧
    (addState (KB.init.add ["a", "b", "c"] [(1, 2)] none "train")).answers 0 "train" =
      some [] ∧
    some [] ≠ some [(1 : Nat)] :=
  ⟨rfl, rfl, by decide⟩

/-- C1 (amended): a call to `add` with non-empty spans and a mismatched
answers length does raise the validation error, but the mutations made
before the length check persist: `num_contexts(dataset)` has increased by
one (offset tables, packed arrays and the word vocabulary were already
extended); only the per-partition answer array is untouched. -/
theorem c1_mismatch_mutations_persist (kb : KB) (context : List String)
    (spans : List (Nat × Nat)) (as : List String) (ds : String)
    (hs : spans ≠ []) (ha : as.length ≠ spans.length)
    (hax : dcontains kb.contexts ds = true → kb.answersArr ≠ []) :
    exIsOk (kb.add context spans (some as) ds) = false ∧
    (addState (kb.add context spans (some as) ds)).num_contexts ds =
      kb.num_contexts ds + 1 ∧
    dgetD (addState (kb.add context spans (some as) ds)).answersArr ds [] =
      dgetD kb.answersArr ds [] := by
  have hs0 : spans.length ≠ 0 := by simpa [List.length_eq_zero] using hs
  rw [add_mismatch_eq kb context spans as ds hs0 ha hax]
  obtain ⟨o1, o2, o3, o4, o5, o6, o7, o8, o9, o10, o11⟩ :=
    addOffsets_spec (({ kb with ordered := false } : KB).addCreate ds) ds
  obtain ⟨e1, e2, e3, e4, e5, e6, e7, e8, e9, e10⟩ :=
    addCreate_spec ({ kb with ordered := false } : KB) ds
  obtain ⟨r1, r2, r3, r4⟩ :=
    addCore_frame ((({ kb with ordered := false } : KB).addCreate ds).addOffsets ds)
      context spans ds
  refine ⟨rfl, ?_, ?_⟩
  · show (dgetD (KB.addMismatchState kb context spans ds).context_offsets ds []).length = _
    unfold KB.addMismatchState KB.addPre
    rw [r1, o8, e5, e9]
    simp [KB.num_contexts]
  · show dgetD (KB.addMismatchState kb context spans ds).answersArr ds [] = _
    unfold KB.addMismatchState KB.addPre
    rw [r3, o7]
    exact e8

/-- C1 counterexample: the claim "afterwards num_contexts(dataset) ... are
all exactly as they were before the call" fails on a fresh store at
`add(["a"], [(0,1)], answers=["x","y"])`: the error is raised, yet
`num_contexts("train")` went from 0 to 1. -/
theorem c1_counterexample :
    exIsOk (KB.init.add ["a"] [(0, 1)] (some ["x", "y"]) "train") = false ∧
    KB.init.num_contexts "train" = 0 ∧
    (addState (KB.init.add ["a"] [(0, 1)] (some ["x", "y"]) "train")).num_contexts "train"
      = 1 :=
  ⟨rfl, rfl, rfl⟩

/-- C1 witness: the amended statement instantiated on the fresh-store
mismatch call. -/
theorem c1_witness :
    exIsOk (KB.init.add ["a"] [(0, 1)] (some ["x", "y"]) "train") = false ∧
    (addState (KB.init.add ["a"] [(0, 1)] (some ["x", "y"]) "train")).num_contexts "train" =
      KB.init.num_contexts "train" + 1 ∧
    dgetD (addState (KB.init.add ["a"] [(0, 1)] (some ["x", "y"]) "train")).answersArr
      "train" [] = dgetD KB.init.answersArr "train" [] :=
  c1_mismatch_mutations_persist KB.init ["a"] [(0, 1)] ["x", "y"] "train"
    (by decide) (by decide) (fun h => absurd h (by decide))

/-- C3 counterexample: after `add_fact(["Paris","is","capital","of","France"],
[(0,1),(3,4)])` on a fresh store (fact id 0), `fact_entities(0, "train")`
returns `([0], [(0,1)])`: the span `(3,4)` stored for fact 0 is absent,
because the function indexes the entity-indexed mention arrays with the
fact id. -/
theorem c3_counterexample :
    exIsOk (FactKB.init.add ["Paris", "is", "capital", "of", "France"]
      [(0, 1), (3, 4)] none "train") = true ∧
    (factAddState (FactKB.init.add ["Paris", "is", "capital", "of", "France"]
      [(0, 1), (3, 4)] none "train")).fact_entities 0 "train" = some ([0], [(0, 1)]) ∧
    ((3, 4) : Nat × Nat) ∉ [((0, 1) : Nat × Nat)] :=
  ⟨rfl, rfl, by decide⟩

/-- C3 (amended): `fact_entities(id, dataset)` treats its argument as an
entity id, not a fact id: whenever it returns a pair, the first component
is exactly `facts_about(id, dataset)` — the list of facts mentioning
entity `id` — and the second the aligned mention spans of that entity. -/
theorem c3_fact_entities_is_entity_view (fkb : FactKB) (i : Nat) (d : String)
    (fl : List Nat) (sl : List (Nat × Nat))
    (h : fkb.fact_entities i d = some (fl, sl)) :
    fkb.facts_about (Sum.inr i) d = some fl := by
  unfold FactKB.fact_entities at h
  show (dlookup fkb.entity_ctxt d).bind (fun a => a.get? i) = some fl
  split at h
  · next x y hx hy =>
    simp only [Option.some.injEq, Prod.mk.injEq] at h
    rw [hx, h.1]
  · next => cases h

/-- C3 witness: on the Paris example, `facts_about(0, "train")` agrees
with the first component of `fact_entities(0, "train")`. -/
theorem c3_witness :
    (factAddState (FactKB.init.add ["Paris", "is", "capital", "of", "France"]
      [(0, 1), (3, 4)] none "train")).facts_about (Sum.inr 0) "train" = some [0] :=
  c3_fact_entities_is_entity_view _ 0 "train" [0] [(0, 1)] rfl

/-- C4 counterexample: two symbols with equal counts. Original ids are
`a ↦ 0`, `b ↦ 1` with `count = [1, 1]`; a stable descending sort would
keep `a` before `b`, but after `order_vocab_by_freq()` the ids are
`a ↦ 1`, `b ↦ 0`: the tie is broken the other way round. -/
theorem c4_counterexample :
    (addState (KB.init.add ["a", "b"] [(0, 1)] none "train")).count = [1, 1] ∧
    dlookup (addState (KB.init.add ["a", "b"] [(0, 1)] none "train")).ids "a" = some 0 ∧
    dlookup (addState (KB.init.add ["a", "b"] [(0, 1)] none "train")).ids "b" = some 1 ∧
    dlookup ((addState (KB.init.add ["a", "b"] [(0, 1)] none
      "train")).order_vocab_by_freq).ids "a" = some 1 ∧
    dlookup ((addState (KB.init.add ["a", "b"] [(0, 1)] none
      "train")).order_vocab_by_freq).ids "b" = some 0 :=
  ⟨rfl, rfl, rfl, rfl, rfl⟩

/-- C8 counterexample: with two stored contexts, `context(-2, "train")`
does not fail: Python negative indexing wraps it around and the call
returns the tokens of context 0. -/
theorem c8_counterexample :
    (addState ((addState (KB.init.add ["a"] [(0, 1)] none "train")).add ["b"] [(0, 1)]
      none "train")).num_contexts "train" = 2 ∧
    (addState ((addState (KB.init.add ["a"] [(0, 1)] none "train")).add ["b"] [(0, 1)]
      none "train")).context (-2) "train" = some [0] ∧
    (addState ((addState (KB.init.add ["a"] [(0, 1)] none "train")).add ["b"] [(0, 1)]
      none "train")).context 0 "train" = some [0] :=
  ⟨rfl, rfl, rfl⟩

/-- C7: `order_vocab_by_freq` leaves both offset tables, the span start
and end arrays, and the answer-id arrays of every partition unchanged,
and preserves the length (and key) of every packed context array: only
token values inside the context arrays are rewritten. -/
theorem c7_order_frame (kb : KB) :
    (kb.order_vocab_by_freq).context_offsets = kb.context_offsets ∧
    (kb.order_vocab_by_freq).span_offsets = kb.span_offsets ∧
    (kb.order_vocab_by_freq).starts = kb.starts ∧
    (kb.order_vocab_by_freq).ends = kb.ends ∧
    (kb.order_vocab_by_freq).answersArr = kb.answersArr ∧
    (kb.order_vocab_by_freq).contexts.map (fun p => (p.1, p.2.length)) =
      kb.contexts.map (fun p => (p.1, p.2.length)) := by
  unfold KB.order_vocab_by_freq
  by_cases h : kb.ordered
  · rw [if_pos h]
    exact ⟨rfl, rfl, rfl, rfl, rfl, rfl⟩
  · rw [if_neg h]
    refine ⟨rfl, rfl, rfl, rfl, rfl, ?_⟩
    show (kb.contexts.map fun p => (p.1, p.2.map fun v => kb.freqMapping.getD v 0)).map
      (fun p => (p.1, p.2.length)) = _
    rw [List.map_map]
    exact List.map_congr_left (fun p hp => by simp [Function.comp])

theorem pyIdx_eq_none_iff (n : Nat) (i : Int) :
    pyIdx n i = none ↔ (i < -(n : Int) ∨ (n : Int) ≤ i) := by
  unfold pyIdx
  by_cases h0 : (0 : Int) ≤ i
  · rw [if_pos h0]
    by_cases h1 : i < (n : Int)
    · rw [if_pos h1]
      constructor
      · intro h; cases h
      · intro h; omega
    · rw [if_neg h1]
      constructor
      · intro _; omega
      · intro _; rfl
  · rw [if_neg h0]
    by_cases h2 : -(n : Int) ≤ i
    · rw [if_pos h2]
      constructor
      · intro h; cases h
      · intro h; omega
    · rw [if_neg h2]
      constructor
      · intro _; omega
      · intro _; rfl

/-- C8 (amended): `context(i, dataset)` fails exactly when `i ≥
num_contexts`, `i < -num_contexts`, or the partition does not exist.  In
particular for `-num_contexts ≤ i < 0` it does **not** fail: Python's
negative-index wrap applies and a stored slice is returned (see the
counterexample, where `context(-2)` silently returns context 0). -/
theorem c8_out_of_range_characterization (kb : KB) (d : String) (i : Int) :
    kb.context i d = none ↔
      (i < -((kb.num_contexts d : Nat) : Int) ∨ ((kb.num_contexts d : Nat) : Int) ≤ i ∨
        dcontains kb.context_offsets d = false) := by
  unfold KB.context
  cases hl : dlookup kb.context_offsets d with
  | none =>
    have hc : dcontains kb.context_offsets d = false := by simp [dcontains, hl]
    simp [hc]
  | some offs =>
    have hc : dcontains kb.context_offsets d = true := by simp [dcontains, hl]
    have hn : kb.num_contexts d = offs.length := by simp [KB.num_contexts, dgetD, hl]
    rw [hn, hc]
    cases hp : pyIdx offs.length i with
    | none =>
      have hr := (pyIdx_eq_none_iff offs.length i).mp hp
      simp only [hp]
      refine iff_of_true trivial ?_
      rcases hr with h | h
      · exact Or.inl h
      · exact Or.inr (Or.inl h)
    | some j =>
      have hr : ¬(i < -(offs.length : Int) ∨ (offs.length : Int) ≤ i) := by
        intro hh
        rw [(pyIdx_eq_none_iff offs.length i).mpr hh] at hp
        cases hp
      simp only [hp]
      apply iff_of_false
      · exact Option.some_ne_none _
      · intro h
        rcases h with h | h | h
        · exact hr (Or.inl h)
        · exact hr (Or.inr h)
        · exact Bool.noConfusion h

/-! ### Properties of the stable insertion argsort -/

theorem insertIdxSorted_perm (key : Nat → Nat) (i : Nat) (l : List Nat) :
    List.Perm (insertIdxSorted key i l) (i :: l) := by
  induction l with
  | nil => exact List.Perm.refl _
  | cons j rest ih =>
    unfold insertIdxSorted
    by_cases h : key j < key i
    · rw [if_pos h]
      exact (ih.cons j).trans (List.Perm.swap i j rest)
    · rw [if_neg h]

theorem insertionArgsort_perm (key : Nat → Nat) (idxs : List Nat) :
    List.Perm (insertionArgsort key idxs) idxs := by
  induction idxs with
  | nil => exact List.Perm.refl _
  | cons c rest ih =>
    exact (insertIdxSorted_perm key c (insertionArgsort key rest)).trans (ih.cons c)

theorem sorted_insertIdxSorted (key : Nat → Nat) (i : Nat) (l : List Nat)
    (h : List.Pairwise (fun a b => key a ≤ key b) l) :
    List.Pairwise (fun a b => key a ≤ key b) (insertIdxSorted key i l) := by
  induction l with
  | nil => simp [insertIdxSorted]
  | cons j rest ih =>
    rw [List.pairwise_cons] at h
    unfold insertIdxSorted
    by_cases hlt : key j < key i
    · rw [if_pos hlt]
      rw [List.pairwise_cons]
      constructor
      · intro x hx
        have hx' : x ∈ i :: rest := (insertIdxSorted_perm key i rest).mem_iff.mp hx
        rcases List.mem_cons.mp hx' with hx' | hx'
        · subst hx'; exact Nat.le_of_lt hlt
        · exact h.1 x hx'
      · exact ih h.2
    · rw [if_neg hlt]
      rw [List.pairwise_cons]
      constructor
      · intro x hx
        rcases List.mem_cons.mp hx with hx' | hx'
        · subst hx'; exact Nat.le_of_not_lt hlt
        · exact le_trans (Nat.le_of_not_lt hlt) (h.1 x hx')
      · exact List.pairwise_cons.mpr h

theorem sorted_insertionArgsort (key : Nat → Nat) (idxs : List Nat) :
    List.Pairwise (fun a b => key a ≤ key b) (insertionArgsort key idxs) := by
  induction idxs with
  | nil => simp [insertionArgsort]
  | cons c rest ih => exact sorted_insertIdxSorted key c _ ih

theorem sublist_insertIdxSorted (key : Nat → Nat) (i : Nat) (l : List Nat) :
    List.Sublist l (insertIdxSorted key i l) := by
  induction l with
  | nil => simp [insertIdxSorted]
  | cons j rest ih =>
    unfold insertIdxSorted
    by_cases hlt : key j < key i
    · rw [if_pos hlt]
      exact ih.cons₂ j
    · rw [if_neg hlt]
      exact (List.Sublist.refl _).cons i

theorem pair_insertIdxSorted (key : Nat → Nat) {x b : Nat} {l : List Nat}
    (hb : b ∈ l) (hk : key x ≤ key b) : List.Sublist [x, b] (insertIdxSorted key x l) := by
  induction l with
  | nil => cases hb
  | cons j rest ih =>
    unfold insertIdxSorted
    by_cases hlt : key j < key x
    · rw [if_pos hlt]
      rcases List.mem_cons.mp hb with hb' | hb'
      · subst hb'
        exact absurd (Nat.lt_of_le_of_lt hk hlt) (Nat.lt_irrefl _)
      · exact (ih hb').cons j
    · rw [if_neg hlt]
      exact (List.singleton_sublist.mpr hb).cons₂ x

theorem pair_insertionArgsort (key : Nat → Nat) {i j : Nat} {idxs : List Nat}
    (hsub : List.Sublist [i, j] idxs) (hk : key i ≤ key j) :
    List.Sublist [i, j] (insertionArgsort key idxs) := by
  induction idxs with
  | nil => cases hsub
  | cons c rest ih =>
    cases hsub with
    | cons a h' => exact (ih h').trans (sublist_insertIdxSorted key c _)
    | cons₂ a h' =>
      have hj : j ∈ insertionArgsort key rest :=
        (insertionArgsort_perm key rest).mem_iff.mpr (List.singleton_sublist.mp h')
      exact pair_insertIdxSorted key hj hk

theorem pair_sublist_range {i j n : Nat} (hij : i < j) (hjn : j < n) :
    List.Sublist [i, j] (List.range n) := by
  have h1 : List.Sublist [i] (List.range' 0 j) := by
    rw [List.singleton_sublist, List.mem_range']
    exact ⟨i, hij, by omega⟩
  have h2 : List.Sublist [j] (List.range' j (n - j)) := by
    rw [List.singleton_sublist, List.mem_range']
    exact ⟨0, by omega, by omega⟩
  have happ := h1.append h2
  have hr : List.range' 0 j ++ List.range' j (n - j) = List.range n := by
    have := List.range'_append 0 j (n - j) 1
    rw [List.range_eq_range']
    have e1 : 0 + 1 * j = j := by omega
    have e2 : n - j + j = n := by omega
    rw [e1, e2] at this
    exact this
  rwa [hr] at happ

theorem pair_sublist_getD {x y : Nat} {l : List Nat} (h : List.Sublist [x, y] l) :
    ∃ p q, p < q ∧ q < l.length ∧ l.getD p 0 = x ∧ l.getD q 0 = y := by
  induction l with
  | nil => cases h
  | cons c t ih =>
    cases h with
    | cons a h' =>
      obtain ⟨p, q, h1, h2, h3, h4⟩ := ih h'
      exact ⟨p + 1, q + 1, by omega, by simpa using h2, by simpa using h3,
        by simpa using h4⟩
    | cons₂ a h' =>
      obtain ⟨q, hq, hget⟩ := List.getElem_of_mem (List.singleton_sublist.mp h')
      refine ⟨0, q + 1, by omega, by simpa using hq, rfl, ?_⟩
      simp only [List.getD_cons_succ]
      rw [List.getD_eq_getElem?_getD, List.getElem?_eq_getElem hq, hget]
      rfl

theorem argsort_perm (l : List Nat) : List.Perm (argsort l) (List.range l.length) :=
  insertionArgsort_perm _ _

theorem length_argsort (l : List Nat) : (argsort l).length = l.length :=
  (argsort_perm l).length_eq.trans (List.length_range l.length)

theorem nodup_argsort (l : List Nat) : (argsort l).Nodup :=
  ((argsort_perm l).nodup_iff).mpr (List.nodup_range l.length)

theorem mem_argsort {l : List Nat} {v : Nat} : v ∈ argsort l ↔ v < l.length := by
  rw [(argsort_perm l).mem_iff, List.mem_range]

theorem sorted_argsort (l : List Nat) :
    List.Pairwise (fun a b => l.getD a 0 ≤ l.getD b 0) (argsort l) :=
  sorted_insertionArgsort _ _

/-! ### The remap table of the frequency-reordering pass -/

theorem getD_set_ne {α : Type} (l : List α) {i j : Nat} (a d : α) (h : i ≠ j) :
    (l.set i a).getD j d = l.getD j d := by
  rw [List.getD_eq_getElem?_getD, List.getD_eq_getElem?_getD, List.getElem?_set_ne h]

theorem getD_set_self {α : Type} (l : List α) {i : Nat} (a d : α) (h : i < l.length) :
    (l.set i a).getD i d = a := by
  have hl : i < (l.set i a).length := by simpa using h
  rw [List.getD_eq_getElem _ _ hl, List.getElem_set_self]

theorem bmAux_length (s : List Nat) (m : List Nat) (i : Nat) :
    (buildMappingAux m i s).length = m.length := by
  induction s generalizing m i with
  | nil => rfl
  | cons c rest ih =>
    show (buildMappingAux (m.set c i) (i + 1) rest).length = m.length
    rw [ih, List.length_set]

theorem bmAux_getD_not_mem {k : Nat} (s : List Nat) (m : List Nat) (i : Nat)
    (hk : k ∉ s) : (buildMappingAux m i s).getD k 0 = m.getD k 0 := by
  induction s generalizing m i with
  | nil => rfl
  | cons c rest ih =>
    have hck : c ≠ k := fun h => hk (h ▸ List.mem_cons_self c rest)
    have hkr : k ∉ rest := fun h => hk (List.mem_cons_of_mem c h)
    show (buildMappingAux (m.set c i) (i + 1) rest).getD k 0 = m.getD k 0
    rw [ih _ _ hkr, getD_set_ne _ _ _ hck]

theorem bmAux_getD_pos (s : List Nat) (hnd : s.Nodup) (m : List Nat) (i j : Nat)
    (hj : j < s.length) (hb : s.getD j 0 < m.length) :
    (buildMappingAux m i s).getD (s.getD j 0) 0 = i + j := by
  induction s generalizing m i j with
  | nil => simp at hj
  | cons c rest ih =>
    cases j with
    | zero =>
      rw [List.getD_cons_zero] at hb ⊢
      have hcr : c ∉ rest := (List.nodup_cons.mp hnd).1
      show (buildMappingAux (m.set c i) (i + 1) rest).getD c 0 = i + 0
      rw [bmAux_getD_not_mem rest _ _ hcr, getD_set_self _ _ _ hb]
      omega
    | succ j' =>
      rw [List.getD_cons_succ] at hb ⊢
      have hj' : j' < rest.length := by simpa using hj
      have hb' : rest.getD j' 0 < (m.set c i).length := by rwa [List.length_set]
      show (buildMappingAux (m.set c i) (i + 1) rest).getD (rest.getD j' 0) 0 = i + (j' + 1)
      rw [ih (List.nodup_cons.mp hnd).2 _ _ j' hj' hb']
      omega

theorem freqOrder_length (kb : KB) : kb.freqOrder.length = kb.count.length := by
  unfold KB.freqOrder
  rw [List.length_reverse, length_argsort]

theorem freqOrder_nodup (kb : KB) : kb.freqOrder.Nodup := by
  unfold KB.freqOrder
  exact List.nodup_reverse.mpr (nodup_argsort _)

theorem mem_freqOrder (kb : KB) {v : Nat} : v ∈ kb.freqOrder ↔ v < kb.count.length := by
  unfold KB.freqOrder
  rw [List.mem_reverse, mem_argsort]

theorem freqMapping_at (kb : KB) (hlen : kb.count.length = kb.vocab.length)
    {j : Nat} (hj : j < kb.freqOrder.length) :
    kb.freqMapping.getD (kb.freqOrder.getD j 0) 0 = j := by
  unfold KB.freqMapping
  have hb : kb.freqOrder.getD j 0 < (List.replicate kb.vocab.length 0).length := by
    rw [List.length_replicate]
    have hmem : kb.freqOrder.getD j 0 ∈ kb.freqOrder := by
      rw [List.getD_eq_getElem _ _ hj]
      exact List.getElem_mem hj
    rw [← hlen]
    exact (mem_freqOrder kb).mp hmem
  have := bmAux_getD_pos kb.freqOrder (freqOrder_nodup kb)
    (List.replicate kb.vocab.length 0) 0 j hj hb
  simpa using this

theorem freqMapping_spec (kb : KB) (hlen : kb.count.length = kb.vocab.length)
    {v : Nat} (hv : v < kb.vocab.length) :
    ∃ j, j < kb.freqOrder.length ∧ kb.freqOrder.getD j 0 = v ∧
      kb.freqMapping.getD v 0 = j := by
  have hmem : v ∈ kb.freqOrder := (mem_freqOrder kb).mpr (hlen ▸ hv)
  obtain ⟨j, hj, hget⟩ := List.getElem_of_mem hmem
  have hgd : kb.freqOrder.getD j 0 = v := by
    rw [List.getD_eq_getElem _ _ hj, hget]
  refine ⟨j, hj, hgd, ?_⟩
  have := freqMapping_at kb hlen hj
  rwa [hgd] at this

theorem freq_decode (kb : KB) (hlen : kb.count.length = kb.vocab.length)
    {v : Nat} (hv : v < kb.vocab.length) :
    (kb.freqOrder.map (fun k => kb.vocab.getD k "")).getD (kb.freqMapping.getD v 0) "" =
      kb.vocab.getD v "" ∧ kb.freqMapping.getD v 0 < kb.freqOrder.length := by
  obtain ⟨j, hj, hget, hmap⟩ := freqMapping_spec kb hlen hv
  rw [hmap]
  exact ⟨by rw [getD_map_lt _ _ hj "" 0, hget], hj⟩

theorem order_of_ordered {kb : KB} (h : kb.ordered = true) :
    kb.order_vocab_by_freq = kb := by
  unfold KB.order_vocab_by_freq
  rw [if_pos h]

theorem order_of_not_ordered {kb : KB} (h : kb.ordered = false) :
    kb.order_vocab_by_freq =
      { kb with
        vocab := kb.freqOrder.map (fun k => kb.vocab.getD k ""),
        count := kb.freqOrder.map (fun k => kb.count.getD k 0),
        ids := kb.ids.map (fun p => (p.1, kb.freqMapping.getD p.2 0)),
        contexts := kb.contexts.map
          (fun p => (p.1, p.2.map (fun v => kb.freqMapping.getD v 0))),
        ordered := true } := by
  unfold KB.order_vocab_by_freq
  rw [if_neg (by simp [h])]

/-- C4 (amended): after `order_vocab_by_freq()` on an unordered store with
aligned count/vocab lengths, the count array is sorted in non-increasing
order — but the applied permutation `freqMapping` is **not** the stable
descending sort: because `np.argsort(count)` sorts ascending (stably) and
is then reversed, two symbols with equal counts come out with the
**larger** original id first, i.e. for `i < j` with `count[i] = count[j]`
the new id of `j` is smaller than the new id of `i`. -/
theorem c4_count_sorted_tie_reversed (kb : KB) (hord : kb.ordered = false)
    (hlen : kb.count.length = kb.vocab.length) :
    List.Pairwise (fun a b => b ≤ a) (kb.order_vocab_by_freq).count ∧
    (∀ i j, i < j → j < kb.count.length → kb.count.getD i 0 = kb.count.getD j 0 →
      kb.freqMapping.getD j 0 < kb.freqMapping.getD i 0) := by
  constructor
  · have heq : (kb.order_vocab_by_freq).count =
        kb.freqOrder.map (fun k => kb.count.getD k 0) := by
      rw [order_of_not_ordered hord]
    rw [heq, List.pairwise_map]
    unfold KB.freqOrder
    rw [List.pairwise_reverse]
    exact sorted_argsort kb.count
  · intro i j hij hj hcnt
    have hpair : List.Sublist [i, j] (argsort kb.count) :=
      pair_insertionArgsort _ (pair_sublist_range hij hj) (le_of_eq hcnt)
    obtain ⟨p, q, hpq, hqlen, hpi, hqj⟩ := pair_sublist_getD hpair
    have hL : (argsort kb.count).length = kb.count.length := length_argsort _
    have hfl : kb.freqOrder.length = (argsort kb.count).length := by
      unfold KB.freqOrder
      rw [List.length_reverse]
    have hrev : ∀ r, r < (argsort kb.count).length →
        kb.freqOrder.getD ((argsort kb.count).length - 1 - r) 0 =
          (argsort kb.count).getD r 0 := by
      intro r hr
      unfold KB.freqOrder
      have h1 : (argsort kb.count).length - 1 - r < (argsort kb.count).reverse.length := by
        rw [List.length_reverse]
        omega
      have h2 : r < (argsort kb.count).length := hr
      rw [List.getD_eq_getElem _ _ h1, List.getElem_reverse]
      have he : (argsort kb.count).length - 1 -
          ((argsort kb.count).length - 1 - r) = r := by omega
      rw [List.getD_eq_getElem _ _ h2]
      congr 1
    have hplen : p < (argsort kb.count).length := lt_trans hpq hqlen
    have hq' : (argsort kb.count).length - 1 - q < kb.freqOrder.length := by
      rw [hfl]
      omega
    have hp' : (argsort kb.count).length - 1 - p < kb.freqOrder.length := by
      rw [hfl]
      omega
    have hmj : kb.freqMapping.getD j 0 = (argsort kb.count).length - 1 - q := by
      have := freqMapping_at kb hlen hq'
      rwa [hrev q hqlen, hqj] at this
    have hmi : kb.freqMapping.getD i 0 = (argsort kb.count).length - 1 - p := by
      have := freqMapping_at kb hlen hp'
      rwa [hrev p hplen, hpi] at this
    rw [hmi, hmj]
    omega

/-- C4 witness: the amended statement on the two-symbol equal-count store;
the tie between original ids 0 and 1 maps 1 before 0. -/
theorem c4_witness :
    List.Pairwise (fun a b => b ≤ a)
      ((addState (KB.init.add ["a", "b"] [(0, 1)] none "train")).order_vocab_by_freq).count ∧
    (addState (KB.init.add ["a", "b"] [(0, 1)] none "train")).freqMapping.getD 1 0 <
      (addState (KB.init.add ["a", "b"] [(0, 1)] none "train")).freqMapping.getD 0 0 :=
  ⟨(c4_count_sorted_tie_reversed (addState (KB.init.add ["a", "b"] [(0, 1)] none "train"))
      rfl rfl).1,
    (c4_count_sorted_tie_reversed (addState (KB.init.add ["a", "b"] [(0, 1)] none "train"))
      rfl rfl).2 0 1 (by decide) (by decide) (by decide)⟩

/-- C6: on a store whose count and vocabulary lengths agree and whose
stored token ids are all in vocabulary range, `order_vocab_by_freq` (i)
is a no-op when called a second time with no intervening `add`, and (ii)
preserves decoding: every stored context read through the new store and
decoded through the new vocabulary yields the same token strings as
before the reordering. -/
theorem c6_order_decode_preserved (kb : KB) (d : String) (i : Int)
    (hlen : kb.count.length = kb.vocab.length)
    (htok : ∀ p ∈ kb.contexts, ∀ v ∈ p.2, v < kb.vocab.length) :
    (kb.order_vocab_by_freq).order_vocab_by_freq = kb.order_vocab_by_freq ∧
    ((kb.order_vocab_by_freq).context i d).map
        (List.map (fun v => (kb.order_vocab_by_freq).vocab.getD v "")) =
      (kb.context i d).map (List.map (fun v => kb.vocab.getD v "")) := by
  by_cases hord : kb.ordered
  · have heq : kb.order_vocab_by_freq = kb := order_of_ordered hord
    rw [heq]
    exact ⟨heq, rfl⟩
  · have hord' : kb.ordered = false := by simpa using hord
    have heq := order_of_not_ordered hord'
    constructor
    · exact order_of_ordered (by rw [heq])
    · have hoff : (kb.order_vocab_by_freq).context_offsets = kb.context_offsets := by
        rw [heq]
      have hctx : (kb.order_vocab_by_freq).contexts =
          kb.contexts.map (fun p => (p.1, p.2.map (fun v => kb.freqMapping.getD v 0))) := by
        rw [heq]
      have hvoc : (kb.order_vocab_by_freq).vocab =
          kb.freqOrder.map (fun k => kb.vocab.getD k "") := by
        rw [heq]
      unfold KB.context
      rw [hoff, hctx, hvoc]
      cases hl : dlookup kb.context_offsets d with
      | none => rfl
      | some offs =>
        simp only
        have hctxD : dgetD (kb.contexts.map
            (fun p => (p.1, p.2.map (fun v => kb.freqMapping.getD v 0)))) d [] =
            (dgetD kb.contexts d []).map (fun v => kb.freqMapping.getD v 0) := by
          unfold dgetD
          rw [dlookup_map_val]
          cases dlookup kb.contexts d <;> simp
        rw [hctxD]
        cases hp : pyIdx offs.length i with
        | none => rfl
        | some j =>
          simp only [List.length_map, listSlice_map, List.map_map,
            Option.map_some']
          congr 1
          apply List.map_congr_left
          intro v hv
          have hvc : v ∈ dgetD kb.contexts d [] := mem_of_mem_listSlice hv
          have hbound : v < kb.vocab.length := by
            cases hce : dlookup kb.contexts d with
            | none =>
              rw [dgetD, hce] at hvc
              simp at hvc
            | some arr =>
              have hmem := dlookup_some_mem hce
              have hva : v ∈ arr := by
                rw [dgetD, hce] at hvc
                simpa using hvc
              exact htok (d, arr) hmem v hva
          have hd := freq_decode kb hlen hbound
          simpa [Function.comp] using hd.1

/-- C6 witness: the statement instantiated on a concrete two-token store,
partition "train", context 0. -/
theorem c6_witness :
    (((addState (KB.init.add ["a", "b"] [(0, 1)] none
        "train")).order_vocab_by_freq).order_vocab_by_freq =
      (addState (KB.init.add ["a", "b"] [(0, 1)] none "train")).order_vocab_by_freq) ∧
    (((addState (KB.init.add ["a", "b"] [(0, 1)] none
        "train")).order_vocab_by_freq).context 0 "train").map
        (List.map (fun v => ((addState (KB.init.add ["a", "b"] [(0, 1)] none
          "train")).order_vocab_by_freq).vocab.getD v "")) =
      ((addState (KB.init.add ["a", "b"] [(0, 1)] none "train")).context 0 "train").map
        (List.map (fun v => (addState (KB.init.add ["a", "b"] [(0, 1)] none
          "train")).vocab.getD v "")) :=
  c6_order_decode_preserved (addState (KB.init.add ["a", "b"] [(0, 1)] none "train"))
    "train" 0 rfl (by decide)

/-! ### Sequential-add round-trip machinery (C5) -/

theorem models_init (d : String) : Models KB.init d [] := by
  refine ⟨fun p hp => absurd hp (List.not_mem_nil p), [], ?_, rfl, ?_⟩
  · exact ⟨rfl, rfl, rfl, rfl, rfl, rfl, rfl, rfl, rfl, rfl, rfl⟩
  · intro i hi
    simp at hi

theorem dcontains_ne_nil {α : Type} {d : List (String × α)} {k : String}
    (h : dcontains d k = true) : d ≠ [] := by
  intro he
  subst he
  cases h

theorem idsOK_congr {k1 k2 : KB} (hi : k2.ids = k1.ids) (hv : k2.vocab = k1.vocab)
    (h : IdsOK k1) : IdsOK k2 := by
  unfold IdsOK at *
  rw [hi, hv]
  exact h

theorem create_stage (kb0 : KB) (d : String)
    (hax : dcontains kb0.contexts d = true → dcontains kb0.answersArr d = true) :
    dgetD (kb0.addCreate d).contexts d [] = dgetD kb0.contexts d [] ∧
    dgetD (kb0.addCreate d).starts d [] = dgetD kb0.starts d [] ∧
    dgetD (kb0.addCreate d).ends d [] = dgetD kb0.ends d [] ∧
    dgetD (kb0.addCreate d).context_offsets d [] = dgetD kb0.context_offsets d [] ∧
    dgetD (kb0.addCreate d).span_offsets d [] = dgetD kb0.span_offsets d [] ∧
    dcontains (kb0.addCreate d).answersArr d = true ∧
    (kb0.addCreate d).ids = kb0.ids ∧
    (kb0.addCreate d).vocab = kb0.vocab ∧
    (kb0.addCreate d).ordered = kb0.ordered := by
  obtain ⟨e1, e2, e3, e4, e5, e6, e7, e8, e9, e10⟩ := addCreate_spec kb0 d
  by_cases hc : dcontains kb0.contexts d
  · rw [addCreate_eq_of_contains hc]
    exact ⟨rfl, rfl, rfl, rfl, rfl, hax hc, rfl, rfl, rfl⟩
  · exact ⟨e5, e6, e7, e9, e10,
      addCreate_answersArr_dcontains (by simpa using hc), e2, e1, e4⟩

theorem pushAnswer_answersArr_dcontains (kb : KB) (d a : String) :
    dcontains (kb.pushAnswer d a).answersArr d = true := by
  obtain ⟨f1, f2, f3, f4, f5, f6, f7⟩ :=
    add_to_vocab_frame
      { (kb.add_to_answer_vocab a).2 with
        answersArr := dset (kb.add_to_answer_vocab a).2.answersArr d
          (dgetD (kb.add_to_answer_vocab a).2.answersArr d []
            ++ [(kb.add_to_answer_vocab a).1]) } a
  show dcontains (kb.pushAnswer d a).answersArr d = true
  unfold KB.pushAnswer
  rw [f4]
  exact dcontains_dset_self _ _ _

theorem addAnswers_answersArr_dcontains (as : List String) (kb : KB) (d : String)
    (h : dcontains kb.answersArr d = true) :
    dcontains (kb.addAnswers d as).answersArr d = true := by
  induction as generalizing kb with
  | nil => exact h
  | cons a rest ih =>
    show dcontains ((kb.pushAnswer d a).addAnswers d rest).answersArr d = true
    exact ih _ (pushAnswer_answersArr_dcontains kb d a)

theorem add_ok_none_eq (kb : KB) (context : List String) (spans : List (Nat × Nat))
    (d : String) (hs : spans.length ≠ 0) :
    kb.add context spans none d =
      KB.finishAdd (kb.addMismatchState context spans d) context spans d := by
  unfold KB.add KB.addMismatchState KB.addPre
  rw [if_neg hs]

theorem add_ok_some_eq (kb : KB) (context : List String) (spans : List (Nat × Nat))
    (as : List String) (d : String) (hs : spans.length ≠ 0)
    (hlen : as.length = spans.length)
    (hax : dcontains kb.contexts d = true → kb.answersArr ≠ []) :
    kb.add context spans (some as) d =
      KB.finishAdd ((kb.addMismatchState context spans d).addAnswers d as)
        context spans d := by
  have hne : (kb.addMismatchState context spans d).answersArr ≠ [] := by
    have h3 := (addCore_frame (kb.addPre d) context spans d).2.2.1
    unfold KB.addMismatchState
    rw [h3]
    show (({ kb with ordered := false } : KB).addCreate d).answersArr ≠ []
    exact addCreate_answersArr_ne d hax
  have hne' : ¬(kb.addMismatchState context spans d).answersArr.isEmpty = true := by
    simpa [List.isEmpty_iff] using hne
  show (kb.add context spans (some as) d) = _
  unfold KB.add KB.addMismatchState KB.addPre at *
  rw [if_neg hs]
  show (if _ = true then _ else if _ then _ else _) = _
  rw [if_neg hne', if_neg (by simp [hlen])]

theorem mismatch_spec (kb : KB) (d : String) (context : List String)
    (spans : List (Nat × Nat)) (recs : List (List Nat × List (Nat × Nat)))
    (hIds : IdsOK kb) (hAbs : AbsVals kb d recs) :
    IdsOK (kb.addMismatchState context spans d) ∧
    kb.vocab <+: (kb.addMismatchState context spans d).vocab ∧
    AbsVals (kb.addMismatchState context spans d) d
      (recs ++ [(kb.addToks d context, spans)]) ∧
    (kb.addToks d context).map
      (fun v => (kb.addMismatchState context spans d).vocab.getD v "") = context ∧
    (∀ v ∈ kb.addToks d context, v < (kb.addMismatchState context spans d).vocab.length) := by
  obtain ⟨a1, a2, a3, a4, a5, a6, a7, a8, a9, a10, a11⟩ := hAbs
  have hax : dcontains ({ kb with ordered := false } : KB).contexts d = true →
      dcontains ({ kb with ordered := false } : KB).answersArr d = true := by
    intro h
    show dcontains kb.answersArr d = true
    rw [a10, ← a6]
    exact h
  obtain ⟨c1, c2, c3, c4, c5, c6, c7, c8, c9⟩ :=
    create_stage ({ kb with ordered := false } : KB) d hax
  obtain ⟨o1, o2, o3, o4, o5, o6, o7, o8, o9, o10, o11⟩ :=
    addOffsets_spec (({ kb with ordered := false } : KB).addCreate d) d
  have hIdsC : IdsOK (({ kb with ordered := false } : KB).addCreate d) :=
    idsOK_congr c7 c8 hIds
  have hIdsO : IdsOK (kb.addPre d) := idsOK_congr o2 o1 hIdsC
  obtain ⟨s1, s2, s3, s4, s5, s6, s7, s8, s9, s10, s11, s12, s13, s14⟩ :=
    addCore_spec (kb.addPre d) context spans d hIdsO
  have hOctx : dgetD (kb.addPre d).contexts d [] = (recs.map Prod.fst).flatten := by
    show dgetD ((({ kb with ordered := false } : KB).addCreate d).addOffsets d).contexts
      d [] = _
    rw [o4]
    exact c1.trans a1
  have hOst : dgetD (kb.addPre d).starts d [] =
      (recs.map (fun r => r.2.map Prod.fst)).flatten := by
    show dgetD ((({ kb with ordered := false } : KB).addCreate d).addOffsets d).starts
      d [] = _
    rw [o5]
    exact c2.trans a3
  have hOen : dgetD (kb.addPre d).ends d [] =
      (recs.map (fun r => r.2.map Prod.snd)).flatten := by
    show dgetD ((({ kb with ordered := false } : KB).addCreate d).addOffsets d).ends
      d [] = _
    rw [o6]
    exact c3.trans a4
  have hOco : dgetD (kb.addPre d).context_offsets d [] =
      startOffsets (recs.map (fun r => r.1.length)) ++ [(recs.map Prod.fst).flatten.length] := by
    show dgetD ((({ kb with ordered := false } : KB).addCreate d).addOffsets d).context_offsets
      d [] = _
    rw [o8, c4, c1]
    rw [show dgetD ({ kb with ordered := false } : KB).context_offsets d [] =
      dgetD kb.context_offsets d [] from rfl]
    rw [show dgetD ({ kb with ordered := false } : KB).contexts d [] =
      dgetD kb.contexts d [] from rfl]
    rw [a2, a1]
  have hOso : dgetD (kb.addPre d).span_offsets d [] =
      startOffsets (recs.map (fun r => r.2.length)) ++
        [(recs.map (fun r => r.2.map Prod.fst)).flatten.length] := by
    show dgetD ((({ kb with ordered := false } : KB).addCreate d).addOffsets d).span_offsets
      d [] = _
    rw [o9, c5, c2]
    rw [show dgetD ({ kb with ordered := false } : KB).span_offsets d [] =
      dgetD kb.span_offsets d [] from rfl]
    rw [show dgetD ({ kb with ordered := false } : KB).starts d [] =
      dgetD kb.starts d [] from rfl]
    rw [a5, a3]
  have hOvoc : (kb.addPre d).vocab = kb.vocab := by
    show ((({ kb with ordered := false } : KB).addCreate d).addOffsets d).vocab = _
    rw [o1, c8]
  have hflen1 : (recs.map Prod.fst).flatten.length = (recs.map (fun r => r.1.length)).sum := by
    rw [List.length_flatten, List.map_map]
    rfl
  have hflen2 : (recs.map (fun r => r.2.map Prod.fst)).flatten.length =
      (recs.map (fun r => r.2.length)).sum := by
    rw [List.length_flatten, List.map_map]
    congr 1
    exact List.map_congr_left (fun r _ => by simp [Function.comp])
  unfold KB.addMismatchState KB.addToks
  have hrecsne : ((recs ++ [(((kb.addPre d).internAll context).1, spans)]).isEmpty) = false := by
    simp
  refine ⟨s1, ?_, ⟨?_, ?_, ?_, ?_, ?_, ?_, ?_, ?_, ?_, ?_, ?_⟩, s10, s11⟩
  · rw [← hOvoc]
    exact s2
  · rw [s3, hOctx]
    simp [List.flatten_append]
  · rw [show ((kb.addPre d).addCore context spans d).context_offsets =
      (kb.addPre d).context_offsets from s6]
    rw [hOco]
    simp only [List.map_append, List.map_cons, List.map_nil]
    rw [startOffsets_append_one]
    simp [hflen1]
  · rw [s4, hOst]
    simp [List.flatten_append]
  · rw [s5, hOen]
    simp [List.flatten_append]
  · rw [show ((kb.addPre d).addCore context spans d).span_offsets =
      (kb.addPre d).span_offsets from s7]
    rw [hOso]
    simp only [List.map_append, List.map_cons, List.map_nil]
    rw [startOffsets_append_one]
    simp [hflen2]
  · rw [hrecsne]
    exact s12
  · rw [hrecsne]
    rw [show ((kb.addPre d).addCore context spans d).context_offsets =
      (kb.addPre d).context_offsets from s6]
    show dcontains ((({ kb with ordered := false } : KB).addCreate d).addOffsets
      d).context_offsets d = true
    exact o10
  · rw [hrecsne]
    exact s13
  · rw [hrecsne]
    exact s14
  · rw [hrecsne]
    rw [show ((kb.addPre d).addCore context spans d).answersArr =
      (kb.addPre d).answersArr from s8]
    show dcontains ((({ kb with ordered := false } : KB).addCreate d).addOffsets
      d).answersArr d = true
    rw [o7]
    exact c6
  · rw [hrecsne]
    rw [show ((kb.addPre d).addCore context spans d).span_offsets =
      (kb.addPre d).span_offsets from s7]
    show dcontains ((({ kb with ordered := false } : KB).addCreate d).addOffsets
      d).span_offsets d = true
    exact o11

theorem models_finish (kb P : KB) (d : String) (reqs : List AddReq) (r : AddReq)
    (recs : List (List Nat × List (Nat × Nat)))
    (hlenr : recs.length = reqs.length)
    (hrec : ∀ i, i < reqs.length →
      (recs.getD i ([], [])).2 = (reqs.getD i reqDefault).spans ∧
      ((recs.getD i ([], [])).1).map (fun v => kb.vocab.getD v "") =
        (reqs.getD i reqDefault).context ∧
      ∀ v ∈ (recs.getD i ([], [])).1, v < kb.vocab.length)
    (hAbsS : AbsVals (kb.addMismatchState r.context r.spans d) d
      (recs ++ [(kb.addToks d r.context, r.spans)]))
    (hdecS : (kb.addToks d r.context).map
      (fun v => (kb.addMismatchState r.context r.spans d).vocab.getD v "") = r.context)
    (hboundS : ∀ v ∈ kb.addToks d r.context,
      v < (kb.addMismatchState r.context r.spans d).vocab.length)
    (hIdsP : IdsOK P)
    (hpreP : (kb.addMismatchState r.context r.spans d).vocab <+: P.vocab)
    (hkbP : kb.vocab <+: P.vocab)
    (hc : P.contexts = (kb.addMismatchState r.context r.spans d).contexts)
    (hst : P.starts = (kb.addMismatchState r.context r.spans d).starts)
    (hen : P.ends = (kb.addMismatchState r.context r.spans d).ends)
    (hco : P.context_offsets = (kb.addMismatchState r.context r.spans d).context_offsets)
    (hso : P.span_offsets = (kb.addMismatchState r.context r.spans d).span_offsets)
    (hPa : dcontains P.answersArr d = true) :
    KB.finishAdd P r.context r.spans d = .ok (reqs.length, P.withMax r.context r.spans) ∧
    Models (P.withMax r.context r.spans) d (reqs ++ [r]) := by
  obtain ⟨t1, t2, t3, t4, t5, t6, t7, t8, t9, t10, t11⟩ := hAbsS
  have hnum : P.num_contexts d = reqs.length + 1 := by
    show (dgetD P.context_offsets d []).length = _
    rw [hco, t2, length_startOffsets, List.length_map, List.length_append, hlenr]
    rfl
  constructor
  · show Except.ok ((P.withMax r.context r.spans).num_contexts d - 1,
      P.withMax r.context r.spans) = _
    have hmn : (P.withMax r.context r.spans).num_contexts d = P.num_contexts d := rfl
    rw [hmn, hnum]
    rfl
  · refine ⟨hIdsP, recs ++ [(kb.addToks d r.context, r.spans)],
      ⟨?_, ?_, ?_, ?_, ?_, ?_, ?_, ?_, ?_, ?_, ?_⟩, ?_, ?_⟩
    · show dgetD P.contexts d [] = _
      rw [hc]
      exact t1
    · show dgetD P.context_offsets d [] = _
      rw [hco]
      exact t2
    · show dgetD P.starts d [] = _
      rw [hst]
      exact t3
    · show dgetD P.ends d [] = _
      rw [hen]
      exact t4
    · show dgetD P.span_offsets d [] = _
      rw [hso]
      exact t5
    · show dcontains P.contexts d = _
      rw [hc]
      exact t6
    · show dcontains P.context_offsets d = _
      rw [hco]
      exact t7
    · show dcontains P.starts d = _
      rw [hst]
      exact t8
    · show dcontains P.ends d = _
      rw [hen]
      exact t9
    · show dcontains P.answersArr d = _
      rw [hPa]
      simp
    · show dcontains P.span_offsets d = _
      rw [hso]
      exact t11
    · simp [hlenr]
    · intro i hi
      simp only [List.length_append, List.length_cons, List.length_nil] at hi
      by_cases hlt : i < reqs.length
      · have hlt' : i < recs.length := by omega
        have hg1 : (recs ++ [(kb.addToks d r.context, r.spans)]).getD i ([], []) =
            recs.getD i ([], []) := List.getD_append _ _ _ _ hlt'
        have hg2 : (reqs ++ [r]).getD i reqDefault = reqs.getD i reqDefault :=
          List.getD_append _ _ _ _ hlt
        obtain ⟨p1, p2, p3⟩ := hrec i hlt
        rw [hg1, hg2]
        refine ⟨p1, ?_, ?_⟩
        · show (recs.getD i ([], [])).1.map (fun v => P.vocab.getD v "") = _
          exact (List.map_congr_left
            (fun v hv => getD_of_prefix hkbP (p3 v hv) "")).trans p2
        · intro v hv
          exact lt_of_lt_of_le (p3 v hv) hkbP.length_le
      · have hieq : i = reqs.length := by omega
        subst hieq
        have hg1 : (recs ++ [(kb.addToks d r.context, r.spans)]).getD reqs.length ([], []) =
            (kb.addToks d r.context, r.spans) := by
          rw [← hlenr]
          exact getD_append_length _ _ _
        have hg2 : (reqs ++ [r]).getD reqs.length reqDefault = r :=
          getD_append_length _ _ _
        rw [hg1, hg2]
        refine ⟨rfl, ?_, ?_⟩
        · show (kb.addToks d r.context).map (fun v => P.vocab.getD v "") = _
          exact (List.map_congr_left
            (fun v hv => getD_of_prefix hpreP (hboundS v hv) "")).trans hdecS
        · intro v hv
          exact lt_of_lt_of_le (hboundS v hv) hpreP.length_le

theorem models_step (kb : KB) (d : String) (reqs : List AddReq) (r : AddReq)
    (hM : Models kb d reqs) (hok : reqOkB r = true) :
    kb.add r.context r.spans r.answers d = .ok (reqs.length, addStep d kb r) ∧
    Models (addStep d kb r) d (reqs ++ [r]) := by
  obtain ⟨hIds, recs, hAbs, hlenr, hrec⟩ := hM
  have hok' := hok
  unfold reqOkB at hok'
  rw [Bool.and_eq_true] at hok'
  obtain ⟨hok1, hok2⟩ := hok'
  have hsne : r.spans.length ≠ 0 := by
    intro h
    rw [List.length_eq_zero] at h
    rw [h] at hok1
    simp at hok1
  have hA6 := hAbs.2.2.2.2.2.1
  have hA10 := hAbs.2.2.2.2.2.2.2.2.2.1
  have hax : dcontains kb.contexts d = true → kb.answersArr ≠ [] := by
    intro h
    refine dcontains_ne_nil (k := d) ?_
    rw [hA10, ← hA6]
    exact h
  obtain ⟨mIds, mpre, mAbs, mdec, mbound⟩ :=
    mismatch_spec kb d r.context r.spans recs hIds hAbs
  have hSa : dcontains (kb.addMismatchState r.context r.spans d).answersArr d = true := by
    have t10 := mAbs.2.2.2.2.2.2.2.2.2.1
    rw [t10]
    simp
  cases hrans : r.answers with
  | none =>
    have heq := add_ok_none_eq kb r.context r.spans d hsne
    obtain ⟨hfin1, hfin2⟩ := models_finish kb (kb.addMismatchState r.context r.spans d)
      d reqs r recs hlenr hrec mAbs mdec mbound mIds (List.prefix_refl _) mpre
      rfl rfl rfl rfl rfl hSa
    have hstep : addStep d kb r =
        (kb.addMismatchState r.context r.spans d).withMax r.context r.spans := by
      unfold addStep
      rw [hrans, heq, hfin1]
      rfl
    constructor
    · rw [heq, hfin1, hstep]
    · rw [hstep]
      exact hfin2
  | some as =>
    have hlenas : as.length = r.spans.length := by
      rw [hrans] at hok2
      simpa using hok2
    have heq := add_ok_some_eq kb r.context r.spans as d hsne hlenas hax
    obtain ⟨n1, n2, n3, n4, n5, n6, n7, n8⟩ :=
      addAnswers_spec as (kb.addMismatchState r.context r.spans d) d mIds
    have hPa : dcontains ((kb.addMismatchState r.context r.spans d).addAnswers d
        as).answersArr d = true :=
      addAnswers_answersArr_dcontains as _ d hSa
    obtain ⟨hfin1, hfin2⟩ := models_finish kb
      ((kb.addMismatchState r.context r.spans d).addAnswers d as)
      d reqs r recs hlenr hrec mAbs mdec mbound n1 n2 (mpre.trans n2)
      n3 n4 n5 n6 n7 hPa
    have hstep : addStep d kb r =
        ((kb.addMismatchState r.context r.spans d).addAnswers d as).withMax
          r.context r.spans := by
      unfold addStep
      rw [hrans, heq, hfin1]
      rfl
    constructor
    · rw [heq, hfin1, hstep]
    · rw [hstep]
      exact hfin2

theorem dlookup_eq_of_dcontains {α : Type} {d : List (String × α)} {k : String}
    (h : dcontains d k = true) (dflt : α) : dlookup d k = some (dgetD d k dflt) := by
  unfold dcontains at h
  cases hl : dlookup d k with
  | none => rw [hl] at h; cases h
  | some w => simp [dgetD, hl]

theorem models_num (kb : KB) (d : String) (reqs : List AddReq)
    (hM : Models kb d reqs) : kb.num_contexts d = reqs.length := by
  obtain ⟨-, recs, hAbs, hlenr, -⟩ := hM
  show (dgetD kb.context_offsets d []).length = _
  rw [hAbs.2.1, length_startOffsets, List.length_map, hlenr]

theorem packed_read (ls : List (List Nat)) (i : Nat) (hi : i < ls.length) :
    listSlice ls.flatten ((startOffsets (ls.map List.length)).getD i 0)
      (if i + 1 < ls.length then (startOffsets (ls.map List.length)).getD (i + 1) 0
       else ls.flatten.length) = ls.getD i [] := by
  have hlenmap : (ls.map List.length).length = ls.length := List.length_map _ _
  have hoff1 : (startOffsets (ls.map List.length)).getD i 0 =
      ((ls.map List.length).take i).sum :=
    startOffsets_getD _ i (by rwa [hlenmap])
  have hsucc : ((ls.map List.length).take (i + 1)).sum =
      ((ls.map List.length).take i).sum + (ls.getD i []).length := by
    rw [List.take_succ, List.getElem?_map, List.getElem?_eq_getElem hi]
    rw [List.sum_append]
    rw [List.getD_eq_getElem _ _ hi]
    simp
  have hmt : (ls.map List.length).take i = (ls.take i).map List.length :=
    (List.map_take _ _ _).symm
  by_cases hlt : i + 1 < ls.length
  · rw [if_pos hlt, hoff1, startOffsets_getD _ _ (by rwa [hlenmap]), hsucc, hmt]
    exact slice_flatten ls i hi
  · rw [if_neg hlt, hoff1]
    have hflat : ls.flatten.length = (ls.map List.length).sum := List.length_flatten _
    have hall : ls.map List.length = (ls.map List.length).take (i + 1) := by
      rw [List.take_of_length_le]
      rw [hlenmap]
      omega
    have hflat2 : ls.flatten.length =
        ((ls.map List.length).take i).sum + (ls.getD i []).length := by
      rw [hflat, hall, hsucc]
      rw [← hall]
    rw [hflat2, hmt]
    exact slice_flatten ls i hi

theorem context_eval (kb : KB) (d : String) (offs arr : List Nat) (i : Nat)
    (hl : dlookup kb.context_offsets d = some offs)
    (harr : dgetD kb.contexts d [] = arr)
    (hi : i < offs.length) :
    kb.context (i : Int) d = some (listSlice arr (offs.getD i 0)
      (if i + 1 < offs.length then offs.getD (i + 1) 0 else arr.length)) := by
  unfold KB.context
  rw [hl, harr]
  dsimp only
  rw [pyIdx_coe _ _ hi]
  by_cases hlt : i + 1 < offs.length
  · rw [if_pos hlt]
    have hlt' : ((i : Int) + 1 < (offs.length : Int)) := by exact_mod_cast hlt
    rw [if_pos hlt']
    have hp : pyIdx offs.length ((i : Int) + 1) = some (i + 1) := by
      have := pyIdx_coe offs.length (i + 1) hlt
      rwa [show (((i + 1 : Nat)) : Int) = (i : Int) + 1 by push_cast; ring] at this
    rw [hp]
  · rw [if_neg hlt]
    have hlt' : ¬((i : Int) + 1 < (offs.length : Int)) := by
      intro hh
      exact hlt (by exact_mod_cast hh)
    rw [if_neg hlt']

theorem spans_eval (kb : KB) (d : String) (offs sts ens : List Nat) (i : Nat)
    (hl : dlookup kb.span_offsets d = some offs)
    (hs : dgetD kb.starts d [] = sts)
    (he : dgetD kb.ends d [] = ens)
    (hi : i < offs.length) :
    kb.spans (i : Int) d = some
      (listSlice sts (offs.getD i 0)
        (if i + 1 < offs.length then offs.getD (i + 1) 0 else sts.length),
       listSlice ens (offs.getD i 0)
        (if i + 1 < offs.length then offs.getD (i + 1) 0 else sts.length)) := by
  unfold KB.spans
  rw [hl, hs, he]
  dsimp only
  rw [pyIdx_coe _ _ hi]
  dsimp only
  by_cases hlt : i + 1 < offs.length
  · rw [if_pos hlt]
    have hlt' : ((i : Int) + 1 < (offs.length : Int)) := by exact_mod_cast hlt
    rw [if_pos hlt']
    have hp : pyIdx offs.length ((i : Int) + 1) = some (i + 1) := by
      have := pyIdx_coe offs.length (i + 1) hlt
      rwa [show (((i + 1 : Nat)) : Int) = (i : Int) + 1 by push_cast; ring] at this
    rw [hp]
  · rw [if_neg hlt]
    have hlt' : ¬((i : Int) + 1 < (offs.length : Int)) := by
      intro hh
      exact hlt (by exact_mod_cast hh)
    rw [if_neg hlt']

theorem models_read (kb : KB) (d : String) (reqs : List AddReq)
    (hM : Models kb d reqs) (i : Nat) (hi : i < reqs.length) :
    (kb.context (i : Int) d).map (List.map (fun v => kb.vocab.getD v "")) =
      some (reqs.getD i reqDefault).context ∧
    kb.spans (i : Int) d = some ((reqs.getD i reqDefault).spans.map Prod.fst,
      (reqs.getD i reqDefault).spans.map Prod.snd) := by
  obtain ⟨hIds, recs, hAbs, hlenr, hrec⟩ := hM
  obtain ⟨a1, a2, a3, a4, a5, a6, a7, a8, a9, a10, a11⟩ := hAbs
  obtain ⟨p1, p2, p3⟩ := hrec i hi
  have hir : i < recs.length := hlenr ▸ hi
  have hne : recs.isEmpty = false := by
    cases recs with
    | nil => simp at hir
    | cons x xs => rfl
  have hlkCO : dlookup kb.context_offsets d =
      some (startOffsets (recs.map (fun r => r.1.length))) := by
    have h := dlookup_eq_of_dcontains (d := kb.context_offsets) (k := d)
      (by rw [a7, hne]; rfl) []
    rwa [show dgetD kb.context_offsets d [] =
      startOffsets (recs.map (fun r => r.1.length)) from a2] at h
  have hlkSO : dlookup kb.span_offsets d =
      some (startOffsets (recs.map (fun r => r.2.length))) := by
    have h := dlookup_eq_of_dcontains (d := kb.span_offsets) (k := d)
      (by rw [a11, hne]; rfl) []
    rwa [show dgetD kb.span_offsets d [] =
      startOffsets (recs.map (fun r => r.2.length)) from a5] at h
  have hCOlen : (startOffsets (recs.map (fun r => r.1.length))).length = recs.length := by
    rw [length_startOffsets, List.length_map]
  have hSOlen : (startOffsets (recs.map (fun r => r.2.length))).length = recs.length := by
    rw [length_startOffsets, List.length_map]
  have hmap1 : (recs.map Prod.fst).map List.length = recs.map (fun r => r.1.length) := by
    rw [List.map_map]
    rfl
  have hmap2 : (recs.map (fun r => r.2.map Prod.fst)).map List.length =
      recs.map (fun r => r.2.length) := by
    rw [List.map_map]
    exact List.map_congr_left (fun r _ => by simp [Function.comp])
  constructor
  · have hev := context_eval kb d (startOffsets (recs.map (fun r => r.1.length)))
      ((recs.map Prod.fst).flatten) i hlkCO a1 (by rw [hCOlen]; exact hir)
    rw [hev]
    rw [Option.map_some']
    have hsl : listSlice (recs.map Prod.fst).flatten
        ((startOffsets (recs.map (fun r => r.1.length))).getD i 0)
        (if i + 1 < (startOffsets (recs.map (fun r => r.1.length))).length then
          (startOffsets (recs.map (fun r => r.1.length))).getD (i + 1) 0
         else (recs.map Prod.fst).flatten.length) = (recs.map Prod.fst).getD i [] := by
      rw [hCOlen, ← hmap1]
      have hir' : i < (recs.map Prod.fst).length := by
        rw [List.length_map]
        exact hir
      have := packed_read (recs.map Prod.fst) i hir'
      rwa [show (recs.map Prod.fst).length = recs.length from List.length_map _ _] at this
    rw [hsl]
    rw [show (recs.map Prod.fst).getD i [] = (recs.getD i ([], [])).1 from
      getD_map_lt _ _ hir _ _]
    exact congrArg some p2
  · have hev := spans_eval kb d (startOffsets (recs.map (fun r => r.2.length)))
      ((recs.map (fun r => r.2.map Prod.fst)).flatten)
      ((recs.map (fun r => r.2.map Prod.snd)).flatten) i hlkSO a3 a4
      (by rw [hSOlen]; exact hir)
    rw [hev]
    have hstlen : (recs.map (fun r => r.2.map Prod.fst)).flatten.length =
        (recs.map (fun r => r.2.map Prod.snd)).flatten.length := by
      rw [List.length_flatten, List.length_flatten, List.map_map, List.map_map]
      congr 1
      exact List.map_congr_left (fun r _ => by simp [Function.comp])
    have hsl1 : listSlice (recs.map (fun r => r.2.map Prod.fst)).flatten
        ((startOffsets (recs.map (fun r => r.2.length))).getD i 0)
        (if i + 1 < (startOffsets (recs.map (fun r => r.2.length))).length then
          (startOffsets (recs.map (fun r => r.2.length))).getD (i + 1) 0
         else (recs.map (fun r => r.2.map Prod.fst)).flatten.length) =
        (recs.map (fun r => r.2.map Prod.fst)).getD i [] := by
      rw [hSOlen, ← hmap2]
      have hir' : i < (recs.map (fun r => r.2.map Prod.fst)).length := by
        rw [List.length_map]
        exact hir
      have := packed_read (recs.map (fun r => r.2.map Prod.fst)) i hir'
      rwa [show (recs.map (fun r => r.2.map Prod.fst)).length = recs.length from
        List.length_map _ _] at this
    have hsl2 : listSlice (recs.map (fun r => r.2.map Prod.snd)).flatten
        ((startOffsets (recs.map (fun r => r.2.length))).getD i 0)
        (if i + 1 < (startOffsets (recs.map (fun r => r.2.length))).length then
          (startOffsets (recs.map (fun r => r.2.length))).getD (i + 1) 0
         else (recs.map (fun r => r.2.map Prod.fst)).flatten.length) =
        (recs.map (fun r => r.2.map Prod.snd)).getD i [] := by
      rw [hstlen, hSOlen]
      have hmap3 : (recs.map (fun r => r.2.map Prod.snd)).map List.length =
          recs.map (fun r => r.2.length) := by
        rw [List.map_map]
        exact List.map_congr_left (fun r _ => by simp [Function.comp])
      rw [← hmap3]
      have hir' : i < (recs.map (fun r => r.2.map Prod.snd)).length := by
        rw [List.length_map]
        exact hir
      have := packed_read (recs.map (fun r => r.2.map Prod.snd)) i hir'
      rwa [show (recs.map (fun r => r.2.map Prod.snd)).length = recs.length from
        List.length_map _ _] at this
    rw [hsl1, hsl2]
    rw [show (recs.map (fun r => r.2.map Prod.fst)).getD i [] =
      ((recs.getD i ([], [])).2.map Prod.fst) from getD_map_lt _ _ hir _ _]
    rw [show (recs.map (fun r => r.2.map Prod.snd)).getD i [] =
      ((recs.getD i ([], [])).2.map Prod.snd) from getD_map_lt _ _ hir _ _]
    rw [p1]

theorem models_run (d : String) (reqs2 : List AddReq) :
    ∀ (kb : KB) (reqs1 : List AddReq), Models kb d reqs1 →
      (∀ r ∈ reqs2, reqOkB r = true) →
      Models (reqs2.foldl (addStep d) kb) d (reqs1 ++ reqs2) := by
  induction reqs2 with
  | nil =>
    intro kb reqs1 hM _
    simpa using hM
  | cons r rest ih =>
    intro kb reqs1 hM hok
    have hstep := models_step kb d reqs1 r hM (hok r (List.mem_cons_self r rest))
    have hres := ih (addStep d kb r) (reqs1 ++ [r]) hstep.2
      (fun x hx => hok x (List.mem_cons_of_mem r hx))
    have hassoc : (reqs1 ++ [r]) ++ rest = reqs1 ++ (r :: rest) := by
      rw [List.append_assoc]
      rfl
    rw [hassoc] at hres
    exact hres

theorem models_runAdds (d : String) (reqs : List AddReq)
    (hok : ∀ r ∈ reqs, reqOkB r = true) : Models (runAdds d reqs) d reqs := by
  have h := models_run d reqs KB.init [] (models_init d) hok
  simpa using h

/-- C5: for every sequence of add requests that satisfy the success
precondition, run sequentially into one partition of a fresh store: the
i-th call returns exactly index i together with the store reached by the
first i+1 requests (so each call returns `num_contexts - 1` at the moment
it returns), afterwards `num_contexts` equals the number of calls, and
`context(i)` decoded through the vocabulary and `spans(i)` reproduce
exactly the i-th call's token sequence and span boundaries. -/
theorem c5_sequential_roundtrip (d : String) (reqs : List AddReq)
    (hok : ∀ r ∈ reqs, reqOkB r = true) (i : Nat) (hi : i < reqs.length) :
    ((runAdds d (reqs.take i)).add (reqs.getD i reqDefault).context
        (reqs.getD i reqDefault).spans (reqs.getD i reqDefault).answers d =
      .ok (i, runAdds d (reqs.take (i + 1)))) ∧
    (runAdds d (reqs.take (i + 1))).num_contexts d = i + 1 ∧
    (runAdds d reqs).num_contexts d = reqs.length ∧
    ((runAdds d reqs).context (i : Int) d).map
        (List.map (fun v => (runAdds d reqs).vocab.getD v "")) =
      some (reqs.getD i reqDefault).context ∧
    (runAdds d reqs).spans (i : Int) d =
      some ((reqs.getD i reqDefault).spans.map Prod.fst,
        (reqs.getD i reqDefault).spans.map Prod.snd) := by
  have hMi : Models (runAdds d (reqs.take i)) d (reqs.take i) :=
    models_runAdds d _ (fun r hr => hok r (List.mem_of_mem_take hr))
  have hmem : reqs.getD i reqDefault ∈ reqs := by
    rw [List.getD_eq_getElem _ _ hi]
    exact List.getElem_mem hi
  have hstep := models_step (runAdds d (reqs.take i)) d (reqs.take i)
    (reqs.getD i reqDefault) hMi (hok _ hmem)
  have hlen_take : (reqs.take i).length = i := by
    rw [List.length_take]
    omega
  have htake : reqs.take (i + 1) = reqs.take i ++ [reqs.getD i reqDefault] := by
    rw [List.take_succ, List.getElem?_eq_getElem hi]
    rw [List.getD_eq_getElem _ _ hi]
    rfl
  have hrun : runAdds d (reqs.take (i + 1)) =
      addStep d (runAdds d (reqs.take i)) (reqs.getD i reqDefault) := by
    rw [htake]
    unfold runAdds
    rw [List.foldl_append]
    rfl
  have hM1 : Models (runAdds d (reqs.take (i + 1))) d
      (reqs.take i ++ [reqs.getD i reqDefault]) := by
    rw [hrun]
    exact hstep.2
  have hMall : Models (runAdds d reqs) d reqs := models_runAdds d reqs hok
  refine ⟨?_, ?_, models_num _ _ _ hMall, (models_read _ _ _ hMall i hi).1,
    (models_read _ _ _ hMall i hi).2⟩
  · rw [hrun]
    have h1 := hstep.1
    rwa [hlen_take] at h1
  · rw [models_num _ _ _ hM1]
    rw [List.length_append, hlen_take]
    rfl

/-- C5 witness: the round-trip statement instantiated on the single
request `add(["a","b","c"], [(1,2)], answers=None)`. -/
theorem c5_witness :
    ((runAdds "train" []).add ["a", "b", "c"] [(1, 2)] none "train" =
      .ok (0, runAdds "train" [⟨["a", "b", "c"], [(1, 2)], none⟩])) ∧
    (runAdds "train" [⟨["a", "b", "c"], [(1, 2)], none⟩]).num_contexts "train" = 1 ∧
    (runAdds "train" [⟨["a", "b", "c"], [(1, 2)], none⟩]).num_contexts "train" = 1 ∧
    ((runAdds "train" [⟨["a", "b", "c"], [(1, 2)], none⟩]).context ((0 : Nat) : Int)
        "train").map (List.map (fun v =>
          (runAdds "train" [⟨["a", "b", "c"], [(1, 2)], none⟩]).vocab.getD v "")) =
      some ["a", "b", "c"] ∧
    (runAdds "train" [⟨["a", "b", "c"], [(1, 2)], none⟩]).spans ((0 : Nat) : Int)
        "train" = some ([1], [2]) :=
  c5_sequential_roundtrip "train" [⟨["a", "b", "c"], [(1, 2)], none⟩]
    (by decide) 0 (by decide)

theorem dcontains_eq_keys {α : Type} (d : List (String × α)) (k : String) :
    dcontains d k = (d.map Prod.fst).contains k := by
  induction d with
  | nil => rfl
  | cons p rest ih =>
    obtain ⟨k0, v0⟩ := p
    by_cases h : k0 = k
    · subst h
      simp [dcontains_cons, List.contains_cons]
    · rw [dcontains_cons, if_neg h, List.map_cons, List.contains_cons, ih]
      have hb : (k == k0) = false := by
        simp
        exact fun hh => h hh.symm
      rw [hb]
      simp

theorem mem_dset_replace {α : Type} {dd : List (String × α)} {k : String} {v : α}
    (hc : dcontains dd k = true) {p : String × α} (hp : p ∈ dset dd k v) :
    p ∈ dd ∨ p = (k, v) := by
  unfold dset at hp
  rw [if_pos hc] at hp
  obtain ⟨q, hq, hqe⟩ := List.mem_map.mp hp
  by_cases h : (q.1 == k) = true
  · rw [if_pos h] at hqe
    exact Or.inr hqe.symm
  · rw [if_neg h] at hqe
    exact Or.inl (hqe ▸ hq)

theorem keys_dset_replace {α : Type} (dd : List (String × α)) (k : String) (v : α)
    (hc : dcontains dd k = true) :
    (dset dd k v).map Prod.fst = dd.map Prod.fst := by
  unfold dset
  rw [if_pos hc, List.map_map]
  exact List.map_congr_left (fun q hq => by
    by_cases h : (q.1 == k) = true
    · have : q.1 = k := by simpa using h
      simp [Function.comp, h, this]
    · simp [Function.comp, h])

theorem addMention_inv (fkb : FactKB) (fid : Nat) (ds : String) (e : String)
    (sp : Nat × Nat) (hInv : FactInv fkb) (hds : dcontains fkb.facts ds = true) :
    FactInv (fkb.addMention fid ds e sp) ∧
    dcontains (fkb.addMention fid ds e sp).facts ds = true := by
  obtain ⟨i1, i2, i3, i4, i5⟩ := hInv
  unfold FactKB.addMention
  by_cases hc : dcontains fkb.entity_ids e
  · rw [if_pos hc]
    have hcc : dcontains fkb.entity_ctxt ds = true := by
      rw [dcontains_eq_keys, i4, ← dcontains_eq_keys]
      exact hds
    have hcs : dcontains fkb.entity_ctxt_span ds = true := by
      rw [dcontains_eq_keys, i5, ← dcontains_eq_keys]
      exact hds
    refine ⟨⟨i1, ?_, ?_, ?_, ?_⟩, ?_⟩
    · intro p hp
      rcases mem_dset_replace hcc hp with hp | hp
      · exact i2 p hp
      · subst hp
        show (nestedAppend (dgetD fkb.entity_ctxt ds []) _ _).length = _
        unfold nestedAppend
        rw [List.length_set]
        obtain ⟨w, hw⟩ : ∃ w, dlookup fkb.entity_ctxt ds = some w := by
          unfold dcontains at hcc
          cases hl : dlookup fkb.entity_ctxt ds with
          | none => rw [hl] at hcc; cases hcc
          | some w => exact ⟨w, rfl⟩
        rw [show dgetD fkb.entity_ctxt ds [] = w by simp [dgetD, hw]]
        exact i2 (ds, w) (dlookup_some_mem hw)
    · intro p hp
      rcases mem_dset_replace hcs hp with hp | hp
      · exact i3 p hp
      · subst hp
        show (nestedAppend (dgetD fkb.entity_ctxt_span ds []) _ _).length = _
        unfold nestedAppend
        rw [List.length_set]
        obtain ⟨w, hw⟩ : ∃ w, dlookup fkb.entity_ctxt_span ds = some w := by
          unfold dcontains at hcs
          cases hl : dlookup fkb.entity_ctxt_span ds with
          | none => rw [hl] at hcs; cases hcs
          | some w => exact ⟨w, rfl⟩
        rw [show dgetD fkb.entity_ctxt_span ds [] = w by simp [dgetD, hw]]
        exact i3 (ds, w) (dlookup_some_mem hw)
    · rw [keys_dset_replace _ _ _ hcc, keys_dset_replace _ _ _ hds, i4]
    · rw [keys_dset_replace _ _ _ hcs, keys_dset_replace _ _ _ hds, i5]
    · exact dcontains_dset_self _ _ _
  · rw [if_neg hc]
    have hds1 : dcontains (fkb.facts) ds = true := hds
    have hcc : dcontains (fkb.entity_ctxt.map (fun p => (p.1, p.2 ++ [[]]))) ds = true := by
      rw [dcontains_eq_keys, List.map_map]
      rw [show (fkb.entity_ctxt.map (Prod.fst ∘ fun p => (p.1, p.2 ++ [[]]))) =
        fkb.entity_ctxt.map Prod.fst from List.map_congr_left (fun q _ => rfl)]
      rw [i4, ← dcontains_eq_keys]
      exact hds
    have hcs : dcontains (fkb.entity_ctxt_span.map (fun p => (p.1, p.2 ++ [[]]))) ds
        = true := by
      rw [dcontains_eq_keys, List.map_map]
      rw [show (fkb.entity_ctxt_span.map (Prod.fst ∘ fun p => (p.1, p.2 ++ [[]]))) =
        fkb.entity_ctxt_span.map Prod.fst from List.map_congr_left (fun q _ => rfl)]
      rw [i5, ← dcontains_eq_keys]
      exact hds
    refine ⟨⟨?_, ?_, ?_, ?_, ?_⟩, ?_⟩
    · show (fkb.entity_ids ++ [(e, fkb.entity_vocab.length)]).length
        = (fkb.entity_vocab ++ [e]).length
      simp [i1]
    · intro p hp
      rcases mem_dset_replace hcc hp with hp | hp
      · obtain ⟨q, hq, hqe⟩ := List.mem_map.mp hp
        subst hqe
        show (q.1, q.2 ++ [[]]).2.length = (fkb.entity_vocab ++ [e]).length
        simp [i2 q hq]
      · subst hp
        show (nestedAppend (dgetD (fkb.entity_ctxt.map (fun p => (p.1, p.2 ++ [[]]))) ds [])
          _ _).length = _
        unfold nestedAppend
        rw [List.length_set]
        obtain ⟨w, hw⟩ : ∃ w, dlookup (fkb.entity_ctxt.map (fun p => (p.1, p.2 ++ [[]])))
            ds = some w := by
          unfold dcontains at hcc
          cases hl : dlookup (fkb.entity_ctxt.map (fun p => (p.1, p.2 ++ [[]]))) ds with
          | none => rw [hl] at hcc; cases hcc
          | some w => exact ⟨w, rfl⟩
        rw [show dgetD (fkb.entity_ctxt.map (fun p => (p.1, p.2 ++ [[]]))) ds [] = w by
          simp [dgetD, hw]]
        obtain ⟨q, hq, hqe⟩ := List.mem_map.mp (dlookup_some_mem hw)
        have : w = q.2 ++ [[]] := by
          have := congrArg Prod.snd hqe
          simpa using this.symm
        rw [this]
        show (q.2 ++ [[]]).length = (fkb.entity_vocab ++ [e]).length
        simp [i2 q hq]
    · intro p hp
      rcases mem_dset_replace hcs hp with hp | hp
      · obtain ⟨q, hq, hqe⟩ := List.mem_map.mp hp
        subst hqe
        show (q.1, q.2 ++ [[]]).2.length = (fkb.entity_vocab ++ [e]).length
        simp [i3 q hq]
      · subst hp
        show (nestedAppend (dgetD (fkb.entity_ctxt_span.map (fun p => (p.1, p.2 ++ [[]])))
          ds []) _ _).length = _
        unfold nestedAppend
        rw [List.length_set]
        obtain ⟨w, hw⟩ : ∃ w, dlookup (fkb.entity_ctxt_span.map
            (fun p => (p.1, p.2 ++ [[]]))) ds = some w := by
          unfold dcontains at hcs
          cases hl : dlookup (fkb.entity_ctxt_span.map (fun p => (p.1, p.2 ++ [[]]))) ds with
          | none => rw [hl] at hcs; cases hcs
          | some w => exact ⟨w, rfl⟩
        rw [show dgetD (fkb.entity_ctxt_span.map (fun p => (p.1, p.2 ++ [[]]))) ds [] = w by
          simp [dgetD, hw]]
        obtain ⟨q, hq, hqe⟩ := List.mem_map.mp (dlookup_some_mem hw)
        have : w = q.2 ++ [[]] := by
          have := congrArg Prod.snd hqe
          simpa using this.symm
        rw [this]
        show (q.2 ++ [[]]).length = (fkb.entity_vocab ++ [e]).length
        simp [i3 q hq]
    · rw [keys_dset_replace _ _ _ hcc, keys_dset_replace _ _ _ hds1, List.map_map]
      rw [show (fkb.entity_ctxt.map (Prod.fst ∘ fun p => (p.1, p.2 ++ [[]]))) =
        fkb.entity_ctxt.map Prod.fst from List.map_congr_left (fun q _ => rfl)]
      exact i4
    · rw [keys_dset_replace _ _ _ hcs, keys_dset_replace _ _ _ hds1, List.map_map]
      rw [show (fkb.entity_ctxt_span.map (Prod.fst ∘ fun p => (p.1, p.2 ++ [[]]))) =
        fkb.entity_ctxt_span.map Prod.fst from List.map_congr_left (fun q _ => rfl)]
      exact i5
    · exact dcontains_dset_self _ _ _

theorem addFactsCreate_inv (fkb : FactKB) (ds : String) (h : FactInv fkb) :
    FactInv (fkb.addFactsCreate ds) ∧
    dcontains (fkb.addFactsCreate ds).facts ds = true := by
  obtain ⟨i1, i2, i3, i4, i5⟩ := h
  unfold FactKB.addFactsCreate
  by_cases hc : dcontains fkb.facts ds
  · rw [if_pos hc]
    exact ⟨⟨i1, i2, i3, i4, i5⟩, hc⟩
  · rw [if_neg hc]
    refine ⟨⟨i1, ?_, ?_, ?_, ?_⟩, ?_⟩
    · intro p hp
      rcases List.mem_append.mp hp with hp | hp
      · exact i2 p hp
      · rw [List.mem_singleton] at hp
        subst hp
        simp [i1]
    · intro p hp
      rcases List.mem_append.mp hp with hp | hp
      · exact i3 p hp
      · rw [List.mem_singleton] at hp
        subst hp
        simp [i1]
    · simp only [List.map_append, List.map_cons, List.map_nil, i4]
    · simp only [List.map_append, List.map_cons, List.map_nil, i5]
    · rw [dcontains_append_singleton]
      simp

theorem addEntities_foldl_inv (fid : Nat) (ds : String) :
    ∀ (l : List (String × (Nat × Nat))) (fkb : FactKB),
      FactInv fkb → dcontains fkb.facts ds = true →
      FactInv (l.foldl (fun acc q => FactKB.addMention acc fid ds q.1 q.2) fkb) := by
  intro l
  induction l with
  | nil => exact fun fkb h _ => h
  | cons q rest ih =>
    intro fkb h hds
    obtain ⟨h1, h2⟩ := addMention_inv fkb fid ds q.1 q.2 h hds
    exact ih _ h1 h2

theorem addEntities_inv (fkb : FactKB) (fid : Nat) (es : List String)
    (entity_spans : List (Nat × Nat)) (ds : String) (h : FactInv fkb) :
    FactInv (fkb.addEntities fid es entity_spans ds) := by
  unfold FactKB.addEntities
  obtain ⟨h1, h2⟩ := addFactsCreate_inv fkb ds h
  exact addEntities_foldl_inv fid ds (es.zip entity_spans) _ h1 h2

/-- C10: the entity-index alignment invariant — the per-partition
mention-fact-list and mention-span-list arrays each keep one slot per
interned entity, and the three per-partition dicts stay keyed by the same
partitions — is preserved by every completed `add_fact` call, whatever
order partitions and entities first appear in. -/
theorem c10_entity_index_alignment (fkb : FactKB) (fact : List String)
    (entity_spans : List (Nat × Nat)) (entities : Option (List String))
    (d : String) (fid : Nat) (fkb' : FactKB) (hInv : FactInv fkb)
    (hok : fkb.add fact entity_spans entities d = .ok (fid, fkb')) :
    FactInv fkb' := by
  unfold FactKB.add at hok
  cases entities with
  | none =>
    dsimp only at hok
    cases hks : fkb.kb.add fact entity_spans
        (some (entity_spans.map (spanName fact))) d with
    | error p => rw [hks] at hok; cases hok
    | ok p =>
      rw [hks] at hok
      simp only [Except.ok.injEq, Prod.mk.injEq] at hok
      obtain ⟨_, hfkb⟩ := hok
      subst hfkb
      exact addEntities_inv _ _ _ _ _ hInv
  | some es =>
    dsimp only at hok
    by_cases hlen : es.length ≠ entity_spans.length
    · rw [if_pos hlen] at hok
      cases hok
    · rw [if_neg hlen] at hok
      cases hks : fkb.kb.add fact entity_spans (some es) d with
      | error p => rw [hks] at hok; cases hok
      | ok p =>
        rw [hks] at hok
        simp only [Except.ok.injEq, Prod.mk.injEq] at hok
        obtain ⟨_, hfkb⟩ := hok
        subst hfkb
        exact addEntities_inv _ _ _ _ _ hInv

theorem c10_witness :
    FactInv (((FactKB.init.add ["Paris", "is", "capital", "of", "France"]
      [(0, 1), (3, 4)] none "train").toOption.getD (0, FactKB.init)).2) :=
  c10_entity_index_alignment FactKB.init
    ["Paris", "is", "capital", "of", "France"] [(0, 1), (3, 4)] none "train" 0 _
    ⟨rfl, fun p hp => absurd hp (List.not_mem_nil p),
     fun p hp => absurd hp (List.not_mem_nil p), rfl, rfl⟩ rfl
